import Mathlib

/-!
Verification of the Mastermind solving engine (`mastermind.py`):
the `ComputerCodeBreaker` constraint tracker and its randomized
backtracking guess search, together with the automated feedback
oracle `_auto_feedback`.

Colors are modelled 0-based internally (matching the matrix indices of
the source); guesses carry 1-based color values exactly as in the code.
-/

/-- Configuration held by `MastermindGameUtils`. -/
structure GameUtils where
  n_colors : Nat
  n_positions : Nat
  duplicates_allowed : Bool
deriving DecidableEq

/-- The mutable state of `ComputerCodeBreaker`: the validity matrix,
the unseen-colors set, the right-colors set, and the completion flag. -/
structure Tracker where
  valid_guess : List (List Bool)
  unseen_colors : Finset Nat
  right_colors : Finset Nat
  right_colors_found : Bool
deriving DecidableEq

/-- `ComputerCodeBreaker.__init__`: all matrix entries true, all colors
unseen, no right colors, flag false. -/
def initTracker (gu : GameUtils) : Tracker :=
  { valid_guess := List.replicate gu.n_positions (List.replicate gu.n_colors true)
    unseen_colors := Finset.range gu.n_colors
    right_colors := ∅
    right_colors_found := false }

/-- Read matrix entry `valid_guess[p][c]` (false when out of range). -/
def getEntry (m : List (List Bool)) (p c : Nat) : Bool :=
  (m.getD p []).getD c false

/-- Write matrix entry `valid_guess[p][c] = b` (no-op when out of range). -/
def setEntry (m : List (List Bool)) (p c : Nat) (b : Bool) : List (List Bool) :=
  m.set p ((m.getD p []).set c b)

/-- `for _pos in range(n_positions): valid_guess[_pos][c] = False`. -/
def invalidateColor (gu : GameUtils) (m : List (List Bool)) (c : Nat) : List (List Bool) :=
  (List.range gu.n_positions).foldl (fun m p => setEntry m p c false) m

/-- `for _col in range(n_colors): valid_guess[pos][_col] = False`. -/
def invalidateRow (gu : GameUtils) (m : List (List Bool)) (pos : Nat) : List (List Bool) :=
  (List.range gu.n_colors).foldl (fun m c => setEntry m pos c false) m

/-- The body of the loop in `ComputerCodeBreaker.receive_feedback` for one
position `pos` with guessed `color` (1-based) and peg `peg`. -/
def feedbackStep (gu : GameUtils) (t : Tracker) (pos color : Nat) (peg : Char) : Tracker :=
  let t1 : Tracker := { t with unseen_colors := t.unseen_colors.erase (color - 1) }
  if peg = 'b' then
    let m1 := if gu.duplicates_allowed then t1.valid_guess
              else invalidateColor gu t1.valid_guess (color - 1)
    let m2 := invalidateRow gu m1 pos
    let m3 := setEntry m2 pos (color - 1) true
    { t1 with valid_guess := m3, right_colors := insert (color - 1) t1.right_colors }
  else if peg = 'w' then
    { t1 with valid_guess := setEntry t1.valid_guess pos (color - 1) false
              right_colors := insert (color - 1) t1.right_colors }
  else
    { t1 with valid_guess := invalidateColor gu t1.valid_guess (color - 1) }

/-- `for pos, (peg, color) in enumerate(zip(feedback, guess)): ...`, carrying
the position counter explicitly. -/
def applyPegs (gu : GameUtils) : Tracker → List Char → List Nat → Nat → Tracker
  | t, peg :: fs, color :: gs, pos => applyPegs gu (feedbackStep gu t pos color peg) fs gs (pos + 1)
  | t, _, _, _ => t

/-- `ComputerCodeBreaker._check_right_colors_found`. -/
def check_right_colors_found (gu : GameUtils) (t : Tracker) : Bool :=
  if gu.duplicates_allowed = false then
    decide (t.right_colors.card = gu.n_positions)
  else
    decide (t.unseen_colors = ∅)

/-- `ComputerCodeBreaker.receive_feedback`. -/
def receive_feedback (gu : GameUtils) (t : Tracker) (guess : List Nat) (feedback : List Char) :
    Tracker :=
  let t1 := applyPegs gu t feedback guess 0
  if t1.right_colors_found = false then
    if check_right_colors_found gu t1 then
      { t1 with unseen_colors := ∅, right_colors_found := true }
    else t1
  else t1

/-- `_auto_feedback(code, guess)`: peg-by-peg feedback over `zip(guess, code)`. -/
def auto_feedback (code guess : List Nat) : List Char :=
  (guess.zip code).map (fun gc =>
    if gc.1 = gc.2 then 'b' else if gc.1 ∈ code then 'w' else '.')

/-- The sort key of `_make_guess`:
`2 * int(color + 1 in current_guess) if color in self._unseen_colors else 1`. -/
def priorityKey (unseen : Finset Nat) (cg : List (Option Nat)) (color : Nat) : Nat :=
  if color ∈ unseen then 2 * (if some (color + 1) ∈ cg then 1 else 0) else 1

/-- Priority key as the spec words it (for comparison with `priorityKey`):
a color counts as "already placed" only when it occurs at an EARLIER
position of the guess under construction, i.e. strictly below the current
position. -/
def specPriorityKey (unseen : Finset Nat) (cg : List (Option Nat)) (pos color : Nat) : Nat :=
  if color ∈ unseen then (if some (color + 1) ∈ cg.take pos then 2 else 0) else 1

/-- Stable insertion of `x` into a key-sorted list: `x` goes in front of the
first element whose key is not smaller than `key x`. -/
def insertKey (key : Nat → Nat) (x : Nat) : List Nat → List Nat
  | [] => [x]
  | y :: ys => if key y < key x then y :: insertKey key x ys else x :: y :: ys

/-- Stable sort by ascending key (the semantics of Python's
`list.sort(key=...)`, which is guaranteed stable). -/
def sortKey (key : Nat → Nat) : List Nat → List Nat
  | [] => []
  | x :: xs => insertKey key x (sortKey key xs)

/-- The state threaded through `_make_guess`: the (read-only) tracker
`self`, the `current_guess` array, the `colors_to_check` mask, the number
of `random.shuffle` calls made so far, and a ghost trace recording for
every recursive call its position, the `current_guess` array at entry, the
shuffled candidate list, and the sorted candidate list actually tried. -/
structure SearchState where
  trk : Tracker
  cg : List (Option Nat)
  ctc : List Bool
  rng : Nat
  tra : List (Nat × List (Option Nat) × List Nat × List Nat)
deriving DecidableEq

/-- The candidate loop of `_make_guess` when duplicates are allowed. -/
def tryColorsDup (recd : SearchState → Option (Bool × SearchState)) (pos : Nat) :
    List Nat → SearchState → Option (Bool × SearchState)
  | [], s => some (false, s)
  | color :: rest, s =>
    let s1 : SearchState := { s with cg := s.cg.set pos (some (color + 1)) }
    match recd s1 with
    | none => none
    | some (true, s2) => some (true, s2)
    | some (false, s2) => tryColorsDup recd pos rest s2

/-- The candidate loop of `_make_guess` when duplicates are disallowed:
the chosen color is marked non-checkable before recursing and restored when
the recursive continuation fails. -/
def tryColorsNoDup (recd : SearchState → Option (Bool × SearchState)) (pos : Nat) :
    List Nat → SearchState → Option (Bool × SearchState)
  | [], s => some (false, s)
  | color :: rest, s =>
    let s1 : SearchState := { s with ctc := s.ctc.set color false
                                     cg := s.cg.set pos (some (color + 1)) }
    match recd s1 with
    | none => none
    | some (true, s2) => some (true, s2)
    | some (false, s2) => tryColorsNoDup recd pos rest { s2 with ctc := s2.ctc.set color true }

/-- `ComputerCodeBreaker._make_guess`, with an explicit fuel bound on the
recursion depth (`none` means the fuel ran out; `some (false, _)` is the
source's `return None`, `some (true, s)` returns the guess `s.cg`).
`shuffle` models `random.shuffle`, indexed by the number of shuffle calls
made so far. -/
def searchAux (gu : GameUtils) (shuffle : Nat → List Nat → List Nat) :
    Nat → Nat → SearchState → Option (Bool × SearchState)
  | 0, _, _ => none
  | fuel + 1, pos, s =>
    if pos = gu.n_positions then some (true, s)
    else
      let valid := (List.range gu.n_colors).filter
        (fun c => s.ctc.getD c false && getEntry s.trk.valid_guess pos c)
      let shuffled := shuffle s.rng valid
      let sorted := sortKey (priorityKey s.trk.unseen_colors s.cg) shuffled
      let s1 : SearchState :=
        { s with rng := s.rng + 1, tra := s.tra ++ [(pos, s.cg, shuffled, sorted)] }
      if gu.duplicates_allowed then
        tryColorsDup (fun s2 => searchAux gu shuffle fuel (pos + 1) s2) pos sorted s1
      else
        tryColorsNoDup (fun s2 => searchAux gu shuffle fuel (pos + 1) s2) pos sorted s1

/-- The initial search state built by `ComputerCodeBreaker.make_guess`:
`current_guess = [None] * n_positions` and
`colors_to_check = [c in right_colors or c in unseen_colors for c in range(n_colors)]`. -/
def initSearchState (gu : GameUtils) (t : Tracker) : SearchState :=
  { trk := t
    cg := List.replicate gu.n_positions none
    ctc := (List.range gu.n_colors).map
      (fun c => decide (c ∈ t.right_colors) || decide (c ∈ t.unseen_colors))
    rng := 0
    tra := [] }

/-- `ComputerCodeBreaker.make_guess`, returning the full outcome of the
search (`n_positions + 1` fuel always suffices, see the termination
theorem). -/
def make_guess_run (gu : GameUtils) (shuffle : Nat → List Nat → List Nat) (t : Tracker) :
    Option (Bool × SearchState) :=
  searchAux gu shuffle (gu.n_positions + 1) 0 (initSearchState gu t)

/-- `ComputerCodeBreaker.make_guess`: the guess found, or `none` for the
source's `None` sentinel. -/
def make_guess (gu : GameUtils) (shuffle : Nat → List Nat → List Nat) (t : Tracker) :
    Option (List (Option Nat)) :=
  match make_guess_run gu shuffle t with
  | some (true, s) => some s.cg
  | _ => none

/-- Well-formed matrix shape: `n_positions` rows of `n_colors` entries. -/
def Dims (gu : GameUtils) (m : List (List Bool)) : Prop :=
  m.length = gu.n_positions ∧ ∀ row ∈ m, row.length = gu.n_colors

lemma getD_set_self {α : Type} (l : List α) (i : Nat) (a d : α) (h : i < l.length) :
    (l.set i a).getD i d = a := by
  rw [List.getD_eq_getD_get?, List.get?_set_eq_of_lt _ h]
  rfl

lemma getD_set_ne {α : Type} (l : List α) {i j : Nat} (a d : α) (h : i ≠ j) :
    (l.set i a).getD j d = l.getD j d := by
  rw [List.getD_eq_getD_get?, List.get?_set_ne _ _ h, ← List.getD_eq_getD_get?]

lemma getEntry_setEntry_false (m : List (List Bool)) (p c : Nat) :
    getEntry (setEntry m p c false) p c = false := by
  unfold getEntry setEntry
  rcases Nat.lt_or_ge p m.length with h | h
  · rw [getD_set_self _ _ _ _ h]
    rcases Nat.lt_or_ge c (m.getD p []).length with hc | hc
    · exact getD_set_self _ _ _ _ hc
    · rw [List.set_eq_of_length_le hc, List.getD_eq_default _ _ hc]
  · rw [List.set_eq_of_length_le h, List.getD_eq_default _ _ h]
    rfl

lemma getEntry_setEntry_true (m : List (List Bool)) (p c : Nat) (hp : p < m.length)
    (hc : c < (m.getD p []).length) :
    getEntry (setEntry m p c true) p c = true := by
  unfold getEntry setEntry
  rw [getD_set_self _ _ _ _ hp, getD_set_self _ _ _ _ hc]

lemma getEntry_setEntry_ne (m : List (List Bool)) (p c q d : Nat) (b : Bool)
    (h : p ≠ q ∨ c ≠ d) :
    getEntry (setEntry m p c b) q d = getEntry m q d := by
  unfold getEntry setEntry
  rcases eq_or_ne p q with rfl | hpq
  · rcases h with h | h
    · exact absurd rfl h
    · rcases Nat.lt_or_ge p m.length with hp | hp
      · rw [getD_set_self _ _ _ _ hp, getD_set_ne _ _ _ h]
      · rw [List.set_eq_of_length_le hp]
  · rw [getD_set_ne _ _ _ hpq]

lemma length_setEntry (m : List (List Bool)) (p c : Nat) (b : Bool) :
    (setEntry m p c b).length = m.length := by
  unfold setEntry; exact List.length_set m p _

lemma dims_setEntry {gu : GameUtils} {m : List (List Bool)} (hd : Dims gu m)
    (p c : Nat) (b : Bool) : Dims gu (setEntry m p c b) := by
  rcases hd with ⟨h1, h2⟩
  refine ⟨by rw [length_setEntry, h1], ?_⟩
  intro row hrow
  rcases Nat.lt_or_ge p m.length with hp | hp
  · rcases List.mem_iff_get?.1 hrow with ⟨n, hn⟩
    unfold setEntry at hn
    rcases eq_or_ne p n with rfl | hpn
    · rw [List.get?_set_eq_of_lt _ hp] at hn
      cases hn
      rw [List.length_set]
      refine h2 _ ?_
      rw [List.getD_eq_getElem _ _ hp]
      exact List.getElem_mem hp
    · rw [List.get?_set_ne _ _ hpn] at hn
      exact h2 _ (List.get?_mem hn)
  · unfold setEntry at hrow
    rw [List.set_eq_of_length_le hp] at hrow
    exact h2 _ hrow

lemma getEntry_foldl_col (c : Nat) :
    ∀ (n : Nat) (m : List (List Bool)) (q d : Nat),
      getEntry ((List.range n).foldl (fun m p => setEntry m p c false) m) q d =
        if d = c ∧ q < n then false else getEntry m q d := by
  intro n
  induction n with
  | zero => intro m q d; simp
  | succ n ih =>
    intro m q d
    rw [List.range_succ, List.foldl_append, List.foldl_cons, List.foldl_nil]
    rcases eq_or_ne d c with rfl | hdc
    · rcases Nat.lt_or_ge q (n + 1) with hq | hq
      · simp only [true_and, if_pos hq]
        rcases eq_or_ne q n with rfl | hqn
        · exact getEntry_setEntry_false _ _ _
        · rw [getEntry_setEntry_ne _ _ _ _ _ _ (Or.inl (Ne.symm hqn)), ih]
          have : q < n := by omega
          simp [this]
      · have hqn : n ≠ q := by omega
        rw [getEntry_setEntry_ne _ _ _ _ _ _ (Or.inl hqn), ih]
        have h1 : ¬ q < n := by omega
        have h2 : ¬ q < n + 1 := by omega
        simp [h1, h2]
    · rw [getEntry_setEntry_ne _ _ _ _ _ _ (Or.inr (Ne.symm hdc)), ih]
      simp [hdc]

lemma getEntry_invalidateColor (gu : GameUtils) (m : List (List Bool)) (c q d : Nat) :
    getEntry (invalidateColor gu m c) q d =
      if d = c ∧ q < gu.n_positions then false else getEntry m q d :=
  getEntry_foldl_col c gu.n_positions m q d

lemma getEntry_foldl_row (pos : Nat) :
    ∀ (n : Nat) (m : List (List Bool)) (q d : Nat),
      getEntry ((List.range n).foldl (fun m c => setEntry m pos c false) m) q d =
        if q = pos ∧ d < n then false else getEntry m q d := by
  intro n
  induction n with
  | zero => intro m q d; simp
  | succ n ih =>
    intro m q d
    rw [List.range_succ, List.foldl_append, List.foldl_cons, List.foldl_nil]
    rcases eq_or_ne q pos with rfl | hqp
    · rcases Nat.lt_or_ge d (n + 1) with hd | hd
      · simp only [true_and, if_pos hd]
        rcases eq_or_ne d n with rfl | hdn
        · exact getEntry_setEntry_false _ _ _
        · rw [getEntry_setEntry_ne _ _ _ _ _ _ (Or.inr (Ne.symm hdn)), ih]
          have : d < n := by omega
          simp [this]
      · have hdn : n ≠ d := by omega
        rw [getEntry_setEntry_ne _ _ _ _ _ _ (Or.inr hdn), ih]
        have h1 : ¬ d < n := by omega
        have h2 : ¬ d < n + 1 := by omega
        simp [h1, h2]
    · rw [getEntry_setEntry_ne _ _ _ _ _ _ (Or.inl (Ne.symm hqp)), ih]
      simp [hqp]

lemma getEntry_invalidateRow (gu : GameUtils) (m : List (List Bool)) (pos q d : Nat) :
    getEntry (invalidateRow gu m pos) q d =
      if q = pos ∧ d < gu.n_colors then false else getEntry m q d :=
  getEntry_foldl_row pos gu.n_colors m q d

lemma dims_foldl_setEntry {gu : GameUtils} {m : List (List Bool)} (hd : Dims gu m)
    (l : List Nat) (f : Nat → Nat × Nat) :
    Dims gu (l.foldl (fun m x => setEntry m (f x).1 (f x).2 false) m) := by
  induction l generalizing m with
  | nil => exact hd
  | cons x xs ih => exact ih (dims_setEntry hd _ _ _)

lemma dims_invalidateColor {gu : GameUtils} {m : List (List Bool)} (hd : Dims gu m)
    (c : Nat) : Dims gu (invalidateColor gu m c) :=
  dims_foldl_setEntry hd (List.range gu.n_positions) (fun p => (p, c))

lemma dims_invalidateRow {gu : GameUtils} {m : List (List Bool)} (hd : Dims gu m)
    (pos : Nat) : Dims gu (invalidateRow gu m pos) :=
  dims_foldl_setEntry hd (List.range gu.n_colors) (fun c => (pos, c))

lemma row_len {gu : GameUtils} {m : List (List Bool)} (hd : Dims gu m) {p : Nat}
    (hp : p < gu.n_positions) : (m.getD p []).length = gu.n_colors := by
  have hp' : p < m.length := by rw [hd.1]; exact hp
  refine hd.2 _ ?_
  rw [List.getD_eq_getElem _ _ hp']
  exact List.getElem_mem hp'

lemma dims_feedbackStep {gu : GameUtils} {t : Tracker} (hd : Dims gu t.valid_guess)
    (pos color : Nat) (peg : Char) : Dims gu (feedbackStep gu t pos color peg).valid_guess := by
  unfold feedbackStep
  rcases Decidable.em (peg = 'b') with hb | hb
  · simp only [if_pos hb]
    rcases Decidable.em (gu.duplicates_allowed = true) with hdup | hdup
    · simp only [hdup, if_pos]
      exact dims_setEntry (dims_invalidateRow hd pos) _ _ _
    · rw [Bool.not_eq_true] at hdup
      simp only [hdup]
      exact dims_setEntry (dims_invalidateRow (dims_invalidateColor hd _) pos) _ _ _
  · simp only [if_neg hb]
    rcases Decidable.em (peg = 'w') with hw | hw
    · simp only [if_pos hw]
      exact dims_setEntry hd _ _ _
    · simp only [if_neg hw]
      exact dims_invalidateColor hd _

lemma feedbackStep_unseen (gu : GameUtils) (t : Tracker) (pos color : Nat) (peg : Char) :
    (feedbackStep gu t pos color peg).unseen_colors = t.unseen_colors.erase (color - 1) := by
  unfold feedbackStep
  split
  · rfl
  · split <;> rfl

lemma feedbackStep_flag (gu : GameUtils) (t : Tracker) (pos color : Nat) (peg : Char) :
    (feedbackStep gu t pos color peg).right_colors_found = t.right_colors_found := by
  unfold feedbackStep
  split
  · rfl
  · split <;> rfl

lemma feedbackStep_right (gu : GameUtils) (t : Tracker) (pos color : Nat) (peg : Char) :
    (feedbackStep gu t pos color peg).right_colors =
      if peg = 'b' ∨ peg = 'w' then insert (color - 1) t.right_colors else t.right_colors := by
  unfold feedbackStep
  rcases Decidable.em (peg = 'b') with hb | hb
  · simp [hb]
  · rcases Decidable.em (peg = 'w') with hw | hw
    · simp [hb, hw]
    · simp [hb, hw]


/-- Effect of a black peg at `(pos, color)` on an in-range matrix entry. -/
lemma getEntry_feedbackStep_b {gu : GameUtils} {t : Tracker} (hd : Dims gu t.valid_guess)
    {pos color q d : Nat} (hcol : color - 1 < gu.n_colors)
    (hq : q < gu.n_positions) (hdlt : d < gu.n_colors) :
    getEntry (feedbackStep gu t pos color 'b').valid_guess q d =
      if q = pos then decide (d = color - 1)
      else if gu.duplicates_allowed = false ∧ d = color - 1 then false
      else getEntry t.valid_guess q d := by
  have hstep : (feedbackStep gu t pos color 'b').valid_guess =
      setEntry (invalidateRow gu (if gu.duplicates_allowed then t.valid_guess
        else invalidateColor gu t.valid_guess (color - 1)) pos) pos (color - 1) true := by
    unfold feedbackStep
    rw [if_pos rfl]
  rw [hstep]
  set m1 := if gu.duplicates_allowed then t.valid_guess
            else invalidateColor gu t.valid_guess (color - 1) with hm1
  have hdm1 : Dims gu m1 := by
    rw [hm1]; split
    · exact hd
    · exact dims_invalidateColor hd _
  have hdm2 : Dims gu (invalidateRow gu m1 pos) := dims_invalidateRow hdm1 pos
  rcases eq_or_ne q pos with rfl | hqpos
  · rcases eq_or_ne d (color - 1) with rfl | hdc
    · rw [if_pos rfl, getEntry_setEntry_true _ _ _ ?hl ?hr]
      · simp
      case hl => rw [hdm2.1]; exact hq
      case hr => rw [row_len hdm2 hq]; exact hcol
    · rw [if_pos rfl, getEntry_setEntry_ne _ _ _ _ _ _ (Or.inr (Ne.symm hdc)),
        getEntry_invalidateRow, if_pos ⟨rfl, hdlt⟩]
      simp [hdc]
  · rw [if_neg hqpos, getEntry_setEntry_ne _ _ _ _ _ _ (Or.inl (Ne.symm hqpos)),
      getEntry_invalidateRow, if_neg (by exact fun h => hqpos h.1), hm1]
    rcases Decidable.em (gu.duplicates_allowed = true) with hdup | hdup
    · have hnd : ¬ (gu.duplicates_allowed = false ∧ d = color - 1) := by
        rw [hdup]; rintro ⟨h, -⟩; cases h
      rw [if_pos hdup, if_neg hnd]
    · rw [Bool.not_eq_true] at hdup
      rw [hdup]
      rw [if_neg (by exact fun h => by cases h), getEntry_invalidateColor]
      rcases eq_or_ne d (color - 1) with rfl | hdc
      · rw [if_pos ⟨rfl, hq⟩, if_pos ⟨rfl, rfl⟩]
      · rw [if_neg (by exact fun h => hdc h.1), if_neg (by exact fun h => hdc h.2)]

/-- Effect of a white peg at `(pos, color)` on a matrix entry. -/
lemma getEntry_feedbackStep_w (gu : GameUtils) (t : Tracker) (pos color q d : Nat) :
    getEntry (feedbackStep gu t pos color 'w').valid_guess q d =
      if q = pos ∧ d = color - 1 then false else getEntry t.valid_guess q d := by
  have hstep : (feedbackStep gu t pos color 'w').valid_guess =
      setEntry t.valid_guess pos (color - 1) false := by
    unfold feedbackStep
    rw [if_neg (by decide), if_pos rfl]
  rw [hstep]
  rcases Decidable.em (q = pos ∧ d = color - 1) with hqd | hqd
  · rcases hqd with ⟨rfl, rfl⟩
    rw [if_pos ⟨rfl, rfl⟩]
    exact getEntry_setEntry_false _ _ _
  · rw [if_neg hqd]
    refine getEntry_setEntry_ne _ _ _ _ _ _ ?_
    rcases Decidable.em (pos = q) with rfl | h
    · right
      intro h2
      exact hqd ⟨rfl, h2.symm⟩
    · left; exact h

/-- Effect of a miss peg at `(pos, color)` on an in-range matrix entry. -/
lemma getEntry_feedbackStep_miss (gu : GameUtils) (t : Tracker) {peg : Char}
    (hb : peg ≠ 'b') (hw : peg ≠ 'w') (pos color : Nat) {q : Nat} (d : Nat)
    (hq : q < gu.n_positions) :
    getEntry (feedbackStep gu t pos color peg).valid_guess q d =
      if d = color - 1 then false else getEntry t.valid_guess q d := by
  have hstep : (feedbackStep gu t pos color peg).valid_guess =
      invalidateColor gu t.valid_guess (color - 1) := by
    unfold feedbackStep
    rw [if_neg hb, if_neg hw]
  rw [hstep, getEntry_invalidateColor]
  rcases eq_or_ne d (color - 1) with rfl | hdc
  · rw [if_pos ⟨rfl, hq⟩, if_pos rfl]
  · rw [if_neg (by exact fun h => hdc h.1), if_neg hdc]

lemma length_auto_feedback (code guess : List Nat) (hl : guess.length = code.length) :
    (auto_feedback code guess).length = guess.length := by
  unfold auto_feedback
  rw [List.length_map, List.length_zip, hl, Nat.min_self]

/-- Pointwise value of the feedback oracle. -/
lemma auto_feedback_getD (code guess : List Nat) (p : Nat) (hl : guess.length = code.length)
    (hp : p < guess.length) :
    (auto_feedback code guess).getD p '.' =
      if guess.getD p 0 = code.getD p 0 then 'b'
      else if guess.getD p 0 ∈ code then 'w' else '.' := by
  have hz : p < (guess.zip code).length := by
    rw [List.length_zip, hl, Nat.min_self, ← hl]; exact hp
  have hc : p < code.length := by rw [← hl]; exact hp
  unfold auto_feedback
  rw [List.getD_eq_getElem _ _ (by rw [List.length_map]; exact hz), List.getElem_map,
    List.getElem_zip, List.getD_eq_getElem _ _ hp, List.getD_eq_getElem _ _ hc]

/-- C3: for every secret code and guess of equal length, `_auto_feedback`
produces at each position `p`: a black peg iff `guess[p] = code[p]`, a white
peg iff `guess[p] ≠ code[p]` and the guessed color occurs anywhere in the
code, and a miss otherwise — membership is tested without decrementing
multiplicities already matched. -/
theorem claim_C3_auto_feedback_rule (code guess : List Nat)
    (hl : guess.length = code.length) :
    (auto_feedback code guess).length = guess.length ∧
    ∀ p, p < guess.length →
      ((auto_feedback code guess).getD p '.' = 'b' ↔
        guess.getD p 0 = code.getD p 0) ∧
      ((auto_feedback code guess).getD p '.' = 'w' ↔
        (guess.getD p 0 ≠ code.getD p 0 ∧ guess.getD p 0 ∈ code)) ∧
      ((auto_feedback code guess).getD p '.' = '.' ↔
        (guess.getD p 0 ≠ code.getD p 0 ∧ guess.getD p 0 ∉ code)) := by
  refine ⟨length_auto_feedback code guess hl, fun p hp => ?_⟩
  rw [auto_feedback_getD code guess p hl hp]
  split_ifs with he hm
  · exact ⟨⟨fun _ => he, fun _ => rfl⟩,
      ⟨fun h => absurd h (by decide), fun h => absurd he h.1⟩,
      ⟨fun h => absurd h (by decide), fun h => absurd he h.1⟩⟩
  · exact ⟨⟨fun h => absurd h (by decide), fun h => absurd h he⟩,
      ⟨fun _ => ⟨he, hm⟩, fun _ => rfl⟩,
      ⟨fun h => absurd h (by decide), fun h => absurd hm h.2⟩⟩
  · exact ⟨⟨fun h => absurd h (by decide), fun h => absurd h he⟩,
      ⟨fun h => absurd h (by decide), fun h => absurd h.2 hm⟩,
      ⟨fun _ => ⟨he, hm⟩, fun _ => rfl⟩⟩

theorem claim_C3_witness :
    ([1, 2] : List Nat).length = ([2, 1] : List Nat).length ∧
    ((auto_feedback [2, 1] [1, 2]).length = 2 ∧
    ∀ p, p < 2 →
      ((auto_feedback [2, 1] [1, 2]).getD p '.' = 'b' ↔
        ([1, 2] : List Nat).getD p 0 = ([2, 1] : List Nat).getD p 0) ∧
      ((auto_feedback [2, 1] [1, 2]).getD p '.' = 'w' ↔
        (([1, 2] : List Nat).getD p 0 ≠ ([2, 1] : List Nat).getD p 0 ∧
          ([1, 2] : List Nat).getD p 0 ∈ ([2, 1] : List Nat))) ∧
      ((auto_feedback [2, 1] [1, 2]).getD p '.' = '.' ↔
        (([1, 2] : List Nat).getD p 0 ≠ ([2, 1] : List Nat).getD p 0 ∧
          ([1, 2] : List Nat).getD p 0 ∉ ([2, 1] : List Nat)))) :=
  ⟨by decide, claim_C3_auto_feedback_rule [2, 1] [1, 2] (by decide)⟩

/-- C4 fails on the code: with secret `[1,2,3,4]` and guess `[1,1,2,2]` the
oracle `_auto_feedback` returns `"bwww"`, not `"b..."` as claimed — the
repeated colors 1 and 2 occur in the secret, so positions 1–3 score white
pegs, not misses. -/
theorem claim_C4_counterexample :
    auto_feedback [1, 2, 3, 4] [1, 1, 2, 2] ≠ ['b', '.', '.', '.'] := by
  decide

/-- C4 amended: in the 4-position, 6-color, duplicates-allowed configuration
with secret `[1,2,3,4]`, the oracle applied to the guess `[1,1,2,2]` yields
the feedback `[black, white, white, white]` (`"bwww"`). -/
theorem claim_C4_amended_oracle_value :
    auto_feedback [1, 2, 3, 4] [1, 1, 2, 2] = ['b', 'w', 'w', 'w'] := by
  decide

lemma receive_feedback_matrix (gu : GameUtils) (t : Tracker) (guess : List Nat)
    (feedback : List Char) :
    (receive_feedback gu t guess feedback).valid_guess =
      (applyPegs gu t feedback guess 0).valid_guess := by
  unfold receive_feedback
  dsimp only
  split_ifs <;> rfl

lemma dims_applyPegs {gu : GameUtils} :
    ∀ (fs : List Char) (gs : List Nat) (pos : Nat) (t : Tracker),
      Dims gu t.valid_guess → Dims gu (applyPegs gu t fs gs pos).valid_guess := by
  intro fs
  induction fs with
  | nil => intro gs pos t hd; cases gs <;> exact hd
  | cons peg fs ih =>
    intro gs pos t hd
    cases gs with
    | nil => exact hd
    | cons color gs => exact ih gs (pos + 1) _ (dims_feedbackStep hd pos color peg)

/-- Any entry true after the `receive_feedback` loop was true before, unless
some iteration scored a black peg exactly at that entry. -/
lemma applyPegs_entry_cases {gu : GameUtils} :
    ∀ (fs : List Char) (gs : List Nat) (pos : Nat) (t : Tracker),
      Dims gu t.valid_guess →
      (∀ v ∈ gs, v - 1 < gu.n_colors) →
      ∀ q d, q < gu.n_positions → d < gu.n_colors →
        getEntry (applyPegs gu t fs gs pos).valid_guess q d = true →
        getEntry t.valid_guess q d = true ∨
          ∃ i, i < fs.length ∧ i < gs.length ∧ fs.getD i '.' = 'b' ∧ q = pos + i ∧
            d = gs.getD i 0 - 1 := by
  intro fs
  induction fs with
  | nil => intro gs pos t _ _ q d _ _ h; cases gs <;> exact Or.inl h
  | cons peg fs ih =>
    intro gs pos t hd hcolors q d hq hdlt h
    cases gs with
    | nil => exact Or.inl h
    | cons color gs =>
      have hcol : color - 1 < gu.n_colors := hcolors color (List.mem_cons_self _ _)
      have hstep := ih gs (pos + 1) (feedbackStep gu t pos color peg)
        (dims_feedbackStep hd pos color peg)
        (fun v hv => hcolors v (List.mem_cons_of_mem _ hv)) q d hq hdlt h
      rcases hstep with hnow | ⟨i, hi1, hi2, hi3, hi4, hi5⟩
      · rcases Decidable.em (peg = 'b') with rfl | hb
        · rw [getEntry_feedbackStep_b hd hcol hq hdlt] at hnow
          rcases Decidable.em (q = pos) with rfl | hqpos
          · rw [if_pos rfl, decide_eq_true_eq] at hnow
            exact Or.inr ⟨0, by simp, by simp, rfl, by omega, hnow⟩
          · rw [if_neg hqpos] at hnow
            rcases Decidable.em (gu.duplicates_allowed = false ∧ d = color - 1) with hc | hc
            · rw [if_pos hc] at hnow; cases hnow
            · rw [if_neg hc] at hnow; exact Or.inl hnow
        · rcases Decidable.em (peg = 'w') with rfl | hw
          · rw [getEntry_feedbackStep_w] at hnow
            rcases Decidable.em (q = pos ∧ d = color - 1) with hc | hc
            · rw [if_pos hc] at hnow; cases hnow
            · rw [if_neg hc] at hnow; exact Or.inl hnow
          · rw [getEntry_feedbackStep_miss gu t hb hw pos color d hq] at hnow
            rcases Decidable.em (d = color - 1) with hc | hc
            · rw [if_pos hc] at hnow; cases hnow
            · rw [if_neg hc] at hnow; exact Or.inl hnow
      · refine Or.inr ⟨i + 1, by simp; omega, by simp; omega, ?_, by omega, ?_⟩
        · have : (peg :: fs).getD (i + 1) '.' = fs.getD i '.' := rfl
          rw [this]; exact hi3
        · have : (color :: gs).getD (i + 1) 0 = gs.getD i 0 := rfl
          rw [this]; exact hi5

/-- C2 fails on the code as stated: a black peg re-validates its matrix
entry even when the entry was false before the call, so the set of true
entries can grow. Concretely (1 color, 1 position, duplicates allowed):
after a miss the single entry is false, and a further call with feedback
`"b"` turns it back to true. -/
theorem claim_C2_counterexample :
    getEntry (receive_feedback ⟨1, 1, true⟩
      (receive_feedback ⟨1, 1, true⟩ (initTracker ⟨1, 1, true⟩) [1] ['.'])
      [1] ['b']).valid_guess 0 0 = true ∧
    getEntry (receive_feedback ⟨1, 1, true⟩ (initTracker ⟨1, 1, true⟩)
      [1] ['.']).valid_guess 0 0 = false := by
  decide

/-- C2 amended: the set of true entries of the validity matrix after
`receive_feedback` is a subset of the set before it, PROVIDED every
position scored black has its guessed color still valid there before the
call (which holds in particular whenever the feedback is honest oracle
feedback for a secret the tracker still considers feasible). Without that
proviso a black peg can re-validate a single previously-false entry. -/
theorem claim_C2_amended_monotonic_shrinkage (gu : GameUtils) (t : Tracker)
    (guess : List Nat) (feedback : List Char)
    (hd : Dims gu t.valid_guess)
    (hcolors : ∀ v ∈ guess, 1 ≤ v ∧ v ≤ gu.n_colors)
    (hblack : ∀ p, p < gu.n_positions → feedback.getD p '.' = 'b' →
      getEntry t.valid_guess p (guess.getD p 0 - 1) = true) :
    ∀ q d, q < gu.n_positions → d < gu.n_colors →
      getEntry (receive_feedback gu t guess feedback).valid_guess q d = true →
      getEntry t.valid_guess q d = true := by
  intro q d hq hdlt h
  rw [receive_feedback_matrix] at h
  have hcolors1 : ∀ v ∈ guess, v - 1 < gu.n_colors := by
    intro v hv
    have := hcolors v hv
    omega
  rcases applyPegs_entry_cases feedback guess 0 t hd hcolors1 q d hq hdlt h with
    hnow | ⟨i, _, _, hpeg, hqi, hdi⟩
  · exact hnow
  · subst hqi
    rw [hdi]
    have h0 : 0 + i = i := Nat.zero_add i
    rw [h0] at hq ⊢
    exact hblack i hq hpeg

theorem claim_C2_amended_witness :
    (∀ v ∈ ([1] : List Nat), 1 ≤ v ∧ v ≤ 1) ∧
    (∀ q d, q < 1 → d < 1 →
      getEntry (receive_feedback ⟨1, 1, true⟩ (initTracker ⟨1, 1, true⟩)
        [1] ['b']).valid_guess q d = true →
      getEntry (initTracker ⟨1, 1, true⟩).valid_guess q d = true) :=
  ⟨by decide, claim_C2_amended_monotonic_shrinkage ⟨1, 1, true⟩ (initTracker ⟨1, 1, true⟩)
    [1] ['b'] (by constructor <;> decide) (by decide) (by decide)⟩

lemma receive_feedback_rightc (gu : GameUtils) (t : Tracker) (guess : List Nat)
    (feedback : List Char) :
    (receive_feedback gu t guess feedback).right_colors =
      (applyPegs gu t feedback guess 0).right_colors := by
  unfold receive_feedback
  dsimp only
  split_ifs <;> rfl

lemma list_split_getD {α : Type} (l : List α) (p : Nat) (d : α) (hp : p < l.length) :
    l = l.take p ++ l.getD p d :: l.drop (p + 1) := by
  rw [List.getD_eq_getElem _ _ hp]
  conv_lhs => rw [← List.take_append_drop p l]
  congr 1
  exact List.drop_eq_getElem_cons hp

lemma applyPegs_append {gu : GameUtils} :
    ∀ (fs1 : List Char) (gs1 : List Nat) (fs2 : List Char) (gs2 : List Nat)
      (pos : Nat) (t : Tracker), fs1.length = gs1.length →
      applyPegs gu t (fs1 ++ fs2) (gs1 ++ gs2) pos =
        applyPegs gu (applyPegs gu t fs1 gs1 pos) fs2 gs2 (pos + fs1.length) := by
  intro fs1
  induction fs1 with
  | nil =>
    intro gs1 fs2 gs2 pos t h
    have : gs1 = [] := List.length_eq_zero.mp h.symm
    subst this
    simp [applyPegs]
  | cons peg fs1 ih =>
    intro gs1 fs2 gs2 pos t h
    cases gs1 with
    | nil => simp at h
    | cons color gs1 =>
      have hl : fs1.length = gs1.length := by simpa using h
      have hstep : applyPegs gu t ((peg :: fs1) ++ fs2) ((color :: gs1) ++ gs2) pos =
          applyPegs gu (feedbackStep gu t pos color peg) (fs1 ++ fs2) (gs1 ++ gs2) (pos + 1) := rfl
      rw [hstep, ih gs1 fs2 gs2 (pos + 1) _ hl]
      have hoff : pos + 1 + fs1.length = pos + (peg :: fs1).length := by simp; omega
      rw [hoff]
      rfl

/-- The row/column pattern left by a black peg at position `p` for 1-based
color `c` in a duplicates-disallowed game: only `c` valid at `p`, `c`
invalid everywhere else, and `c` recorded right. -/
def blackRowCol (gu : GameUtils) (p c : Nat) (t : Tracker) : Prop :=
  (∀ d, d < gu.n_colors → getEntry t.valid_guess p d = decide (d = c - 1)) ∧
  (∀ q, q < gu.n_positions → q ≠ p → getEntry t.valid_guess q (c - 1) = false) ∧
  (c - 1) ∈ t.right_colors

lemma blackRowCol_establish {gu : GameUtils} {t : Tracker} (hd : Dims gu t.valid_guess)
    (hdup : gu.duplicates_allowed = false) {p c : Nat} (hp : p < gu.n_positions)
    (hc : c - 1 < gu.n_colors) :
    blackRowCol gu p c (feedbackStep gu t p c 'b') := by
  refine ⟨?_, ?_, ?_⟩
  · intro d hdlt
    rw [getEntry_feedbackStep_b hd hc hp hdlt, if_pos rfl]
  · intro q hq hqp
    rw [getEntry_feedbackStep_b hd hc hq hc, if_neg hqp, if_pos ⟨hdup, rfl⟩]
  · rw [feedbackStep_right, if_pos (Or.inl rfl)]
    exact Finset.mem_insert_self _ _

lemma blackRowCol_step {gu : GameUtils} {t : Tracker} (hd : Dims gu t.valid_guess)
    {p c pos color : Nat} (peg : Char)
    (hp : p < gu.n_positions) (hc1 : 1 ≤ c) (hc : c - 1 < gu.n_colors)
    (hpos : pos ≠ p) (hcol1 : 1 ≤ color) (hcolne : color ≠ c) (hcol : color - 1 < gu.n_colors)
    (hP : blackRowCol gu p c t) : blackRowCol gu p c (feedbackStep gu t pos color peg) := by
  have hne : color - 1 ≠ c - 1 := by omega
  obtain ⟨h1, h2, h3⟩ := hP
  refine ⟨?_, ?_, ?_⟩
  · intro d hdlt
    rcases Decidable.em (peg = 'b') with rfl | hb
    · rw [getEntry_feedbackStep_b hd hcol hp hdlt, if_neg (Ne.symm hpos)]
      rcases Decidable.em (gu.duplicates_allowed = false ∧ d = color - 1) with hcase | hcase
      · rw [if_pos hcase]
        have hdc : d ≠ c - 1 := by rw [hcase.2]; exact hne
        simp [hdc]
      · rw [if_neg hcase, h1 d hdlt]
    · rcases Decidable.em (peg = 'w') with rfl | hw
      · rw [getEntry_feedbackStep_w, if_neg (fun h => (Ne.symm hpos) h.1)]
        exact h1 d hdlt
      · rw [getEntry_feedbackStep_miss gu t hb hw pos color d hp]
        rcases Decidable.em (d = color - 1) with rfl | hdc
        · rw [if_pos rfl]
          simp [hne]
        · rw [if_neg hdc, h1 d hdlt]
  · intro q hq hqp
    rcases Decidable.em (peg = 'b') with rfl | hb
    · rw [getEntry_feedbackStep_b hd hcol hq hc]
      rcases Decidable.em (q = pos) with rfl | hqpos
      · rw [if_pos rfl]
        simp [Ne.symm hne]
      · rw [if_neg hqpos]
        rcases Decidable.em (gu.duplicates_allowed = false ∧ c - 1 = color - 1) with hcase | hcase
        · rw [if_pos hcase]
        · rw [if_neg hcase, h2 q hq hqp]
    · rcases Decidable.em (peg = 'w') with rfl | hw
      · rw [getEntry_feedbackStep_w]
        rcases Decidable.em (q = pos ∧ c - 1 = color - 1) with hcase | hcase
        · rw [if_pos hcase]
        · rw [if_neg hcase, h2 q hq hqp]
      · rw [getEntry_feedbackStep_miss gu t hb hw pos color (c - 1) hq]
        rcases Decidable.em (c - 1 = color - 1) with hcase | hcase
        · rw [if_pos hcase]
        · rw [if_neg hcase, h2 q hq hqp]
  · rw [feedbackStep_right]
    split
    · exact Finset.mem_insert_of_mem h3
    · exact h3

lemma blackRowCol_applyPegs {gu : GameUtils} {p c : Nat}
    (hp : p < gu.n_positions) (hc1 : 1 ≤ c) (hc : c - 1 < gu.n_colors) :
    ∀ (fs : List Char) (gs : List Nat) (pos : Nat) (t : Tracker),
      Dims gu t.valid_guess → pos > p →
      (∀ v ∈ gs, v ≠ c ∧ 1 ≤ v ∧ v - 1 < gu.n_colors) →
      blackRowCol gu p c t → blackRowCol gu p c (applyPegs gu t fs gs pos) := by
  intro fs
  induction fs with
  | nil => intro gs pos t _ _ _ hP; cases gs <;> exact hP
  | cons peg fs ih =>
    intro gs pos t hd hpos hgs hP
    cases gs with
    | nil => exact hP
    | cons color gs =>
      obtain ⟨hne, h1, hlt⟩ := hgs color (List.mem_cons_self _ _)
      exact ih gs (pos + 1) _ (dims_feedbackStep hd pos color peg) (by omega)
        (fun v hv => hgs v (List.mem_cons_of_mem _ hv))
        (blackRowCol_step hd peg hp hc1 hc (by omega) h1 hne hlt hP)

/-- C5: in a duplicates-disallowed game, on a validated pairwise-distinct
guess, a black peg at position `p` for color `c` leaves `c` as the only
valid color at `p`, makes `c` invalid at every other position, and puts
`c` into the right-colors set. -/
theorem claim_C5_black_peg_effect (gu : GameUtils) (t : Tracker) (guess : List Nat)
    (feedback : List Char) (p : Nat)
    (hdup : gu.duplicates_allowed = false)
    (hd : Dims gu t.valid_guess)
    (hlg : guess.length = gu.n_positions)
    (hlf : feedback.length = gu.n_positions)
    (hcolors : ∀ v ∈ guess, 1 ≤ v ∧ v ≤ gu.n_colors)
    (hnd : guess.Nodup)
    (hp : p < gu.n_positions)
    (hpeg : feedback.getD p '.' = 'b') :
    (∀ d, d < gu.n_colors →
      getEntry (receive_feedback gu t guess feedback).valid_guess p d =
        decide (d = guess.getD p 0 - 1)) ∧
    (∀ q, q < gu.n_positions → q ≠ p →
      getEntry (receive_feedback gu t guess feedback).valid_guess q
        (guess.getD p 0 - 1) = false) ∧
    (guess.getD p 0 - 1) ∈ (receive_feedback gu t guess feedback).right_colors := by
  set c := guess.getD p 0 with hcdef
  have hpg : p < guess.length := by rw [hlg]; exact hp
  have hpf : p < feedback.length := by rw [hlf]; exact hp
  have hcmem : c ∈ guess := by
    rw [hcdef, List.getD_eq_getElem _ _ hpg]; exact List.getElem_mem hpg
  have hc1 : 1 ≤ c := (hcolors c hcmem).1
  have hcnc : c - 1 < gu.n_colors := by have := (hcolors c hcmem).2; omega
  have hsg : guess = guess.take p ++ c :: guess.drop (p + 1) := list_split_getD guess p 0 hpg
  have hsf : feedback = feedback.take p ++ 'b' :: feedback.drop (p + 1) := by
    have h := list_split_getD feedback p '.' hpf
    rw [hpeg] at h; exact h
  have hlen : (feedback.take p).length = (guess.take p).length := by
    rw [List.length_take, List.length_take, hlg, hlf]
  have hlenp : (feedback.take p).length = p := by rw [List.length_take]; omega
  have key : applyPegs gu t feedback guess 0 =
      applyPegs gu (feedbackStep gu (applyPegs gu t (feedback.take p) (guess.take p) 0) p c 'b')
        (feedback.drop (p + 1)) (guess.drop (p + 1)) (p + 1) := by
    conv_lhs => rw [hsf, hsg]
    rw [applyPegs_append _ _ _ _ _ _ hlen, hlenp, Nat.zero_add]
    rfl
  have hd1 : Dims gu (applyPegs gu t (feedback.take p) (guess.take p) 0).valid_guess :=
    dims_applyPegs _ _ _ _ hd
  have hdrop : ∀ v ∈ guess.drop (p + 1), v ≠ c ∧ 1 ≤ v ∧ v - 1 < gu.n_colors := by
    intro v hv
    have hvg : v ∈ guess := List.drop_subset _ _ hv
    have hr := hcolors v hvg
    refine ⟨?_, hr.1, by omega⟩
    intro hvc
    subst hvc
    rw [hsg, List.nodup_append] at hnd
    exact (List.nodup_cons.mp hnd.2.1).1 hv
  have hfinal : blackRowCol gu p c (applyPegs gu t feedback guess 0) := by
    rw [key]
    exact blackRowCol_applyPegs hp hc1 hcnc _ _ _ _
      (dims_feedbackStep hd1 p c 'b') (by omega) hdrop
      (blackRowCol_establish hd1 hdup hp hcnc)
  obtain ⟨h1, h2, h3⟩ := hfinal
  refine ⟨?_, ?_, ?_⟩
  · intro d hdlt
    rw [receive_feedback_matrix]
    exact h1 d hdlt
  · intro q hq hqp
    rw [receive_feedback_matrix]
    exact h2 q hq hqp
  · rw [receive_feedback_rightc]
    exact h3

theorem claim_C5_witness :
    ((⟨2, 2, false⟩ : GameUtils).duplicates_allowed = false) ∧
    (∀ d, d < 2 →
      getEntry (receive_feedback ⟨2, 2, false⟩ (initTracker ⟨2, 2, false⟩)
        [1, 2] ['b', 'w']).valid_guess 0 d = decide (d = ([1, 2] : List Nat).getD 0 0 - 1)) ∧
    (∀ q, q < 2 → q ≠ 0 →
      getEntry (receive_feedback ⟨2, 2, false⟩ (initTracker ⟨2, 2, false⟩)
        [1, 2] ['b', 'w']).valid_guess q (([1, 2] : List Nat).getD 0 0 - 1) = false) ∧
    (([1, 2] : List Nat).getD 0 0 - 1) ∈
      (receive_feedback ⟨2, 2, false⟩ (initTracker ⟨2, 2, false⟩)
        [1, 2] ['b', 'w']).right_colors := by
  have h := claim_C5_black_peg_effect ⟨2, 2, false⟩ (initTracker ⟨2, 2, false⟩)
    [1, 2] ['b', 'w'] 0 rfl (by constructor <;> decide) (by decide) (by decide)
    (by decide) (by decide) (by decide) (by decide)
  exact ⟨rfl, h.1, h.2.1, h.2.2⟩

/-- A guess as pre-validated by `MastermindGameUtils.validate_code`. -/
def ValidGuess (gu : GameUtils) (g : List Nat) : Prop :=
  g.length = gu.n_positions ∧ (∀ v ∈ g, 1 ≤ v ∧ v ≤ gu.n_colors) ∧
  (gu.duplicates_allowed = false → g.Nodup)

/-- A feedback string as pre-validated by `MastermindGameUtils.validate_feedback`. -/
def ValidFeedback (gu : GameUtils) (f : List Char) : Prop :=
  f.length = gu.n_positions ∧ ∀ p ∈ f, p = 'b' ∨ p = 'w' ∨ p = '.'

/-- Tracker states reachable from the initial state through validated
feedback turns. -/
inductive Reachable (gu : GameUtils) : Tracker → Prop
  | init : Reachable gu (initTracker gu)
  | step (t : Tracker) (guess : List Nat) (feedback : List Char) :
      Reachable gu t → ValidGuess gu guess → ValidFeedback gu feedback →
      Reachable gu (receive_feedback gu t guess feedback)

lemma applyPegs_flag {gu : GameUtils} :
    ∀ (fs : List Char) (gs : List Nat) (pos : Nat) (t : Tracker),
      (applyPegs gu t fs gs pos).right_colors_found = t.right_colors_found := by
  intro fs
  induction fs with
  | nil => intro gs pos t; cases gs <;> rfl
  | cons peg fs ih =>
    intro gs pos t
    cases gs with
    | nil => rfl
    | cons color gs => rw [show applyPegs gu t (peg :: fs) (color :: gs) pos =
        applyPegs gu (feedbackStep gu t pos color peg) fs gs (pos + 1) from rfl,
        ih, feedbackStep_flag]

lemma applyPegs_unseen_empty {gu : GameUtils} :
    ∀ (fs : List Char) (gs : List Nat) (pos : Nat) (t : Tracker),
      t.unseen_colors = ∅ → (applyPegs gu t fs gs pos).unseen_colors = ∅ := by
  intro fs
  induction fs with
  | nil => intro gs pos t h; cases gs <;> exact h
  | cons peg fs ih =>
    intro gs pos t h
    cases gs with
    | nil => exact h
    | cons color gs =>
      refine ih gs (pos + 1) _ ?_
      rw [feedbackStep_unseen, h]
      exact Finset.erase_empty _

lemma receive_feedback_preserves_done {gu : GameUtils} {t : Tracker}
    (guess : List Nat) (feedback : List Char)
    (h1 : t.right_colors_found = true) (h2 : t.unseen_colors = ∅) :
    (receive_feedback gu t guess feedback).right_colors_found = true ∧
    (receive_feedback gu t guess feedback).unseen_colors = ∅ := by
  have hflag : (applyPegs gu t feedback guess 0).right_colors_found = true := by
    rw [applyPegs_flag]; exact h1
  have hunseen : (applyPegs gu t feedback guess 0).unseen_colors = ∅ :=
    applyPegs_unseen_empty _ _ _ _ h2
  unfold receive_feedback
  dsimp only
  split_ifs with hc1 hc2
  · rw [hflag] at hc1; cases hc1
  · rw [hflag] at hc1; cases hc1
  · exact ⟨hflag, hunseen⟩

lemma reachable_flag_unseen {gu : GameUtils} {t : Tracker} (h : Reachable gu t) :
    t.right_colors_found = true → t.unseen_colors = ∅ := by
  induction h with
  | init =>
    intro hfl
    simp [initTracker] at hfl
  | step t guess feedback hr hv1 hv2 ih =>
    rcases Decidable.em (t.right_colors_found = true) with htrue | hfalse
    · intro _
      exact (receive_feedback_preserves_done guess feedback htrue (ih htrue)).2
    · rw [Bool.not_eq_true] at hfalse
      have hflag : (applyPegs gu t feedback guess 0).right_colors_found = false := by
        rw [applyPegs_flag]; exact hfalse
      unfold receive_feedback
      dsimp only
      split_ifs with hc1
      · intro _; rfl
      · intro hfl
        rw [hflag] at hfl; cases hfl

lemma done_foldl (gu : GameUtils) :
    ∀ (steps : List (List Nat × List Char)) (t : Tracker),
      t.right_colors_found = true → t.unseen_colors = ∅ →
      ((steps.foldl (fun u s => receive_feedback gu u s.1 s.2) t).right_colors_found = true ∧
       (steps.foldl (fun u s => receive_feedback gu u s.1 s.2) t).unseen_colors = ∅) := by
  intro steps
  induction steps with
  | nil => intro t h1 h2; exact ⟨h1, h2⟩
  | cons s rest ih =>
    intro t h1 h2
    have hstep := @receive_feedback_preserves_done gu t s.1 s.2 h1 h2
    exact ih _ hstep.1 hstep.2

/-- C6: in every reachable tracker state with the right-colors-found flag
set, the unseen-colors set is empty, and it stays empty — and the flag
stays set — across any sequence of further `receive_feedback` calls. -/
theorem claim_C6_completion_flag (gu : GameUtils) (t : Tracker) (hr : Reachable gu t)
    (hflag : t.right_colors_found = true) :
    t.unseen_colors = ∅ ∧
    ∀ steps : List (List Nat × List Char),
      ((steps.foldl (fun u s => receive_feedback gu u s.1 s.2) t).right_colors_found = true ∧
       (steps.foldl (fun u s => receive_feedback gu u s.1 s.2) t).unseen_colors = ∅) := by
  have hu := reachable_flag_unseen hr hflag
  exact ⟨hu, fun steps => done_foldl gu steps t hflag hu⟩

theorem claim_C6_witness :
    (receive_feedback ⟨1, 1, true⟩ (initTracker ⟨1, 1, true⟩) [1] ['b']).unseen_colors = ∅ ∧
    ∀ steps : List (List Nat × List Char),
      ((steps.foldl (fun u s => receive_feedback ⟨1, 1, true⟩ u s.1 s.2)
        (receive_feedback ⟨1, 1, true⟩ (initTracker ⟨1, 1, true⟩) [1] ['b'])).right_colors_found
          = true ∧
       (steps.foldl (fun u s => receive_feedback ⟨1, 1, true⟩ u s.1 s.2)
        (receive_feedback ⟨1, 1, true⟩ (initTracker ⟨1, 1, true⟩) [1] ['b'])).unseen_colors
          = ∅) :=
  claim_C6_completion_flag ⟨1, 1, true⟩ _
    (Reachable.step _ [1] ['b'] Reachable.init
      (by refine ⟨by decide, by decide, ?_⟩; intro h; cases h)
      (by exact ⟨by decide, by decide⟩))
    (by decide)

lemma dims_initTracker (gu : GameUtils) : Dims gu (initTracker gu).valid_guess := by
  constructor
  · simp [initTracker]
  · intro row hrow
    rcases List.eq_of_mem_replicate hrow with rfl
    simp

lemma getEntry_initTracker (gu : GameUtils) {p c : Nat} (hp : p < gu.n_positions)
    (hc : c < gu.n_colors) : getEntry (initTracker gu).valid_guess p c = true := by
  unfold initTracker getEntry
  dsimp only
  rw [List.getD_eq_getElem _ _ (show p <
    (List.replicate gu.n_positions (List.replicate gu.n_colors true)).length by
      simpa using hp)]
  rw [List.getElem_replicate]
  rw [List.getD_eq_getElem _ _ (show c < (List.replicate gu.n_colors true).length by
      simpa using hc)]
  rw [List.getElem_replicate]

/-- The 0-based set of colors occurring in the secret code. -/
def secretColors (secret : List Nat) : Finset Nat := (secret.map (fun v => v - 1)).toFinset

lemma mem_secretColors {secret : List Nat} {v : Nat} (hv : v ∈ secret) :
    v - 1 ∈ secretColors secret :=
  List.mem_toFinset.mpr (List.mem_map_of_mem _ hv)

/-- The tracker never rules out the secret: the secret color stays valid at
every position, every secret color is still unseen or confirmed right, and
only secret colors are confirmed right. -/
def OracleInv (gu : GameUtils) (secret : List Nat) (t : Tracker) : Prop :=
  Dims gu t.valid_guess ∧
  (∀ p, p < gu.n_positions → getEntry t.valid_guess p (secret.getD p 0 - 1) = true) ∧
  (∀ v ∈ secret, (v - 1) ∈ t.unseen_colors ∨ (v - 1) ∈ t.right_colors) ∧
  t.right_colors ⊆ secretColors secret

lemma secret_getD_bounds {gu : GameUtils} {secret : List Nat} (hs : ValidGuess gu secret)
    {p : Nat} (hp : p < gu.n_positions) :
    1 ≤ secret.getD p 0 ∧ secret.getD p 0 ≤ gu.n_colors ∧ secret.getD p 0 ∈ secret := by
  have hpl : p < secret.length := by rw [hs.1]; exact hp
  have hmem : secret.getD p 0 ∈ secret := by
    rw [List.getD_eq_getElem _ _ hpl]; exact List.getElem_mem hpl
  exact ⟨(hs.2.1 _ hmem).1, (hs.2.1 _ hmem).2, hmem⟩

lemma secret_getD_ne {gu : GameUtils} {secret : List Nat} (hs : ValidGuess gu secret)
    (hdup : gu.duplicates_allowed = false) {p q : Nat} (hp : p < gu.n_positions)
    (hq : q < gu.n_positions) (hne : p ≠ q) : secret.getD p 0 ≠ secret.getD q 0 := by
  have hnd := hs.2.2 hdup
  have hpl : p < secret.length := by rw [hs.1]; exact hp
  have hql : q < secret.length := by rw [hs.1]; exact hq
  rw [List.getD_eq_getElem _ _ hpl, List.getD_eq_getElem _ _ hql]
  intro he
  exact hne (hnd.getElem_inj_iff.mp he)

lemma oracleInv_step {gu : GameUtils} {secret : List Nat} (hs : ValidGuess gu secret)
    {t : Tracker} (hInv : OracleInv gu secret t) {pos color : Nat} {peg : Char}
    (hpos : pos < gu.n_positions) (hcol1 : 1 ≤ color) (hcol2 : color ≤ gu.n_colors)
    (hpeg : peg = if color = secret.getD pos 0 then 'b'
      else if color ∈ secret then 'w' else '.') :
    OracleInv gu secret (feedbackStep gu t pos color peg) := by
  obtain ⟨hd, hmat, hcolors, hsub⟩ := hInv
  have hcolnc : color - 1 < gu.n_colors := by omega
  refine ⟨dims_feedbackStep hd pos color peg, ?_, ?_, ?_⟩
  · intro p hp
    obtain ⟨hsp1, hsp2, hspmem⟩ := secret_getD_bounds hs hp
    have hspnc : secret.getD p 0 - 1 < gu.n_colors := by omega
    split_ifs at hpeg with hb hw
    · subst hpeg
      rw [getEntry_feedbackStep_b hd hcolnc hp hspnc]
      rcases Decidable.em (p = pos) with rfl | hppos
      · rw [if_pos rfl]
        have heq : secret.getD p 0 - 1 = color - 1 := by rw [hb]
        exact decide_eq_true heq
      · rw [if_neg hppos]
        rcases Decidable.em (gu.duplicates_allowed = false ∧
            secret.getD p 0 - 1 = color - 1) with hcase | hcase
        · exfalso
          have hne := secret_getD_ne hs hcase.1 hp hpos hppos
          have heq : secret.getD p 0 = color := by
            have := hcase.2; omega
          exact hne (by rw [heq, hb])
        · rw [if_neg hcase]; exact hmat p hp
    · subst hpeg
      rw [getEntry_feedbackStep_w]
      have hcase : ¬ (p = pos ∧ secret.getD p 0 - 1 = color - 1) := by
        rintro ⟨rfl, he⟩
        have heq : secret.getD p 0 = color := by omega
        exact hb heq.symm
      rw [if_neg hcase]; exact hmat p hp
    · subst hpeg
      rw [getEntry_feedbackStep_miss gu t (by decide) (by decide) pos color _ hp]
      have hcase : ¬ (secret.getD p 0 - 1 = color - 1) := by
        intro he
        have heq : secret.getD p 0 = color := by omega
        exact hw (heq ▸ hspmem)
      rw [if_neg hcase]; exact hmat p hp
  · intro v hv
    obtain ⟨hv1, hv2⟩ := hs.2.1 v hv
    rw [feedbackStep_unseen, feedbackStep_right]
    rcases Decidable.em (v - 1 = color - 1) with heq | hne
    · have hvc : v = color := by omega
      split_ifs at hpeg with hb hw
      · subst hpeg
        rw [if_pos (Or.inl rfl)]
        right
        rw [heq]
        exact Finset.mem_insert_self _ _
      · subst hpeg
        rw [if_pos (Or.inr rfl)]
        right
        rw [heq]
        exact Finset.mem_insert_self _ _
      · exact absurd (hvc ▸ hv) hw
    · rcases hcolors v hv with hu | hr
      · left; exact Finset.mem_erase.mpr ⟨hne, hu⟩
      · right
        split_ifs
        · exact Finset.mem_insert_of_mem hr
        · exact hr
  · rw [feedbackStep_right]
    split_ifs with hbw
    · have hcmem : color ∈ secret := by
        split_ifs at hpeg with hb hw
        · rw [hb]; exact (secret_getD_bounds hs hpos).2.2
        · exact hw
        · subst hpeg
          rcases hbw with h | h
          · exact absurd h (by decide)
          · exact absurd h (by decide)
      exact Finset.insert_subset_iff.mpr ⟨mem_secretColors hcmem, hsub⟩
    · exact hsub

lemma oracleInv_applyPegs {gu : GameUtils} {secret : List Nat} (hs : ValidGuess gu secret) :
    ∀ (gs : List Nat) (fs : List Char) (pos : Nat) (t : Tracker),
      OracleInv gu secret t →
      (∀ i, i < gs.length →
        1 ≤ gs.getD i 0 ∧ gs.getD i 0 ≤ gu.n_colors ∧
        fs.getD i '.' = (if gs.getD i 0 = secret.getD (pos + i) 0 then 'b'
          else if gs.getD i 0 ∈ secret then 'w' else '.')) →
      (∀ i, i < gs.length → pos + i < gu.n_positions) →
      fs.length = gs.length →
      OracleInv gu secret (applyPegs gu t fs gs pos) := by
  intro gs
  induction gs with
  | nil =>
    intro fs pos t hInv _ _ hlen
    have hfs : fs = [] := List.length_eq_zero.mp hlen
    subst hfs
    exact hInv
  | cons color gs ih =>
    intro fs pos t hInv hpt hpos hlen
    cases fs with
    | nil => simp at hlen
    | cons peg fs =>
      obtain ⟨h1, h2, h3⟩ := hpt 0 (by simp)
      have hp0 : pos < gu.n_positions := by
        have := hpos 0 (by simp); omega
      have hpeg0 : peg = (if color = secret.getD pos 0 then 'b'
          else if color ∈ secret then 'w' else '.') := by
        have hz : pos + 0 = pos := Nat.add_zero pos
        rw [hz] at h3
        exact h3
      have hstep := oracleInv_step hs hInv hp0 h1 h2 hpeg0
      refine ih fs (pos + 1) _ hstep ?_ ?_ ?_
      · intro i hi
        obtain ⟨g1, g2, g3⟩ := hpt (i + 1) (by simp; omega)
        refine ⟨g1, g2, ?_⟩
        have hsh : pos + (i + 1) = pos + 1 + i := by omega
        rw [hsh] at g3
        exact g3
      · intro i hi
        have := hpos (i + 1) (by simp; omega)
        omega
      · simpa using hlen

lemma oracleInv_receive {gu : GameUtils} {secret : List Nat} (hs : ValidGuess gu secret)
    {t : Tracker} (hInv : OracleInv gu secret t) {g : List Nat} (hg : ValidGuess gu g) :
    OracleInv gu secret (receive_feedback gu t g (auto_feedback secret g)) := by
  have hlen_gs : g.length = secret.length := by rw [hg.1, hs.1]
  have ht1 : OracleInv gu secret (applyPegs gu t (auto_feedback secret g) g 0) := by
    refine oracleInv_applyPegs hs g _ 0 t hInv ?_ ?_ ?_
    · intro i hi
      have hmem : g.getD i 0 ∈ g := by
        rw [List.getD_eq_getElem _ _ hi]; exact List.getElem_mem hi
      obtain ⟨h1, h2⟩ := hg.2.1 _ hmem
      refine ⟨h1, h2, ?_⟩
      rw [auto_feedback_getD secret g i hlen_gs hi, Nat.zero_add]
    · intro i hi
      rw [Nat.zero_add]
      rw [hg.1] at hi
      exact hi
    · exact length_auto_feedback secret g hlen_gs
  obtain ⟨hd1, hmat1, hcol1, hsub1⟩ := ht1
  unfold receive_feedback
  dsimp only
  split_ifs with hc1 hc2
  · refine ⟨hd1, hmat1, ?_, hsub1⟩
    intro v hv
    right
    unfold check_right_colors_found at hc2
    split_ifs at hc2 with hdup
    · rw [decide_eq_true_eq] at hc2
      have hnd : secret.Nodup := hs.2.2 hdup
      have hcardsc : (secretColors secret).card = gu.n_positions := by
        unfold secretColors
        rw [List.toFinset_card_of_nodup, List.length_map, hs.1]
        refine List.Nodup.map_on ?_ hnd
        intro x hx y hy hxy
        have hx1 := (hs.2.1 x hx).1
        have hy1 := (hs.2.1 y hy).1
        omega
      have heq : (applyPegs gu t (auto_feedback secret g) g 0).right_colors =
          secretColors secret :=
        Finset.eq_of_subset_of_card_le hsub1 (by rw [hcardsc, hc2])
      rw [heq]
      exact mem_secretColors hv
    · rw [decide_eq_true_eq] at hc2
      rcases hcol1 v hv with hu | hr
      · rw [hc2] at hu
        exact absurd hu (Finset.not_mem_empty _)
      · exact hr
  · exact ⟨hd1, hmat1, hcol1, hsub1⟩
  · exact ⟨hd1, hmat1, hcol1, hsub1⟩

/-- Fold `receive_feedback` with oracle feedback over a list of guesses. -/
def runOracle (gu : GameUtils) (secret : List Nat) (guesses : List (List Nat)) : Tracker :=
  guesses.foldl (fun u g => receive_feedback gu u g (auto_feedback secret g)) (initTracker gu)

lemma oracleInv_init {gu : GameUtils} {secret : List Nat} (hs : ValidGuess gu secret) :
    OracleInv gu secret (initTracker gu) := by
  refine ⟨dims_initTracker gu, ?_, ?_, ?_⟩
  · intro p hp
    obtain ⟨h1, h2, _⟩ := secret_getD_bounds hs hp
    exact getEntry_initTracker gu hp (by omega)
  · intro v hv
    left
    obtain ⟨h1, h2⟩ := hs.2.1 v hv
    unfold initTracker
    dsimp only
    exact Finset.mem_range.mpr (by omega)
  · intro x hx
    unfold initTracker at hx
    dsimp only at hx
    exact absurd hx (Finset.not_mem_empty _)

lemma oracleInv_run {gu : GameUtils} {secret : List Nat} (hs : ValidGuess gu secret) :
    ∀ (guesses : List (List Nat)) (t : Tracker),
      OracleInv gu secret t → (∀ g ∈ guesses, ValidGuess gu g) →
      OracleInv gu secret
        (guesses.foldl (fun u g => receive_feedback gu u g (auto_feedback secret g)) t) := by
  intro guesses
  induction guesses with
  | nil => intro t h _; exact h
  | cons g gs ih =>
    intro t h hv
    exact ih _ (oracleInv_receive hs h (hv g (List.mem_cons_self _ _)))
      (fun x hx => hv x (List.mem_cons_of_mem _ hx))

/-- C10: feeding the tracker honest oracle feedback for a fixed valid secret
keeps the secret feasible after every turn: the secret color stays valid at
each position, and every secret color is still unseen or confirmed right. -/
theorem claim_C10_secret_stays_feasible (gu : GameUtils) (secret : List Nat)
    (guesses : List (List Nat)) (hs : ValidGuess gu secret)
    (hg : ∀ g ∈ guesses, ValidGuess gu g) :
    (∀ p, p < gu.n_positions →
      getEntry (runOracle gu secret guesses).valid_guess p (secret.getD p 0 - 1) = true) ∧
    (∀ v ∈ secret, (v - 1) ∈ (runOracle gu secret guesses).unseen_colors ∨
      (v - 1) ∈ (runOracle gu secret guesses).right_colors) := by
  have h := oracleInv_run hs guesses (initTracker gu) (oracleInv_init hs) hg
  exact ⟨h.2.1, h.2.2.1⟩

theorem claim_C10_witness :
    (∀ p, p < 2 →
      getEntry (runOracle ⟨2, 2, true⟩ [1, 2] [[2, 1], [1, 1]]).valid_guess p
        (([1, 2] : List Nat).getD p 0 - 1) = true) ∧
    (∀ v ∈ ([1, 2] : List Nat),
      (v - 1) ∈ (runOracle ⟨2, 2, true⟩ [1, 2] [[2, 1], [1, 1]]).unseen_colors ∨
      (v - 1) ∈ (runOracle ⟨2, 2, true⟩ [1, 2] [[2, 1], [1, 1]]).right_colors) :=
  claim_C10_secret_stays_feasible ⟨2, 2, true⟩ [1, 2] [[2, 1], [1, 1]]
    ⟨by decide, by decide, fun h => by cases h⟩
    (by intro g hg; fin_cases hg <;> exact ⟨by decide, by decide, fun h => by cases h⟩)

lemma tryColorsDup_isSome {recd : SearchState → Option (Bool × SearchState)} {pos : Nat}
    (hrec : ∀ s, (recd s).isSome) :
    ∀ (l : List Nat) (s : SearchState), (tryColorsDup recd pos l s).isSome := by
  intro l
  induction l with
  | nil => intro s; rfl
  | cons color rest ih =>
    intro s
    rw [tryColorsDup]
    rcases hx : recd { s with cg := s.cg.set pos (some (color + 1)) } with - | ⟨b, s2⟩
    · have hh := hrec { s with cg := s.cg.set pos (some (color + 1)) }
      rw [hx] at hh
      cases hh
    · cases b
      · simpa [hx] using ih s2
      · simp [hx]

lemma tryColorsNoDup_isSome {recd : SearchState → Option (Bool × SearchState)} {pos : Nat}
    (hrec : ∀ s, (recd s).isSome) :
    ∀ (l : List Nat) (s : SearchState), (tryColorsNoDup recd pos l s).isSome := by
  intro l
  induction l with
  | nil => intro s; rfl
  | cons color rest ih =>
    intro s
    rw [tryColorsNoDup]
    rcases hx : recd { s with ctc := s.ctc.set color false, cg := s.cg.set pos (some (color + 1)) } with - | ⟨b, s2⟩
    · have hh := hrec { s with ctc := s.ctc.set color false, cg := s.cg.set pos (some (color + 1)) }
      rw [hx] at hh
      cases hh
    · cases b
      · simpa [hx] using ih { s2 with ctc := s2.ctc.set color true }
      · simp [hx]

lemma searchAux_isSome (gu : GameUtils) (shuffle : Nat → List Nat → List Nat) :
    ∀ (fuel pos : Nat) (s : SearchState), pos ≤ gu.n_positions →
      gu.n_positions - pos < fuel → (searchAux gu shuffle fuel pos s).isSome := by
  intro fuel
  induction fuel with
  | zero => intro pos s h1 h2; omega
  | succ fuel ih =>
    intro pos s h1 h2
    rw [searchAux]
    rcases Decidable.em (pos = gu.n_positions) with he | he
    · rw [if_pos he]; rfl
    · rw [if_neg he]
      have hrec : ∀ s2, (searchAux gu shuffle fuel (pos + 1) s2).isSome := by
        intro s2
        exact ih (pos + 1) s2 (by omega) (by omega)
      dsimp only
      split_ifs
      · exact tryColorsDup_isSome hrec _ _
      · exact tryColorsNoDup_isSome hrec _ _

/-- C9: the backtracking search always terminates: with fuel
`n_positions + 1` (as used by `make_guess_run`) the recursion over
positions and the finite per-position candidate loops always produce an
answer — a guess or the `None` sentinel — never fuel exhaustion. -/
theorem claim_C9_search_terminates (gu : GameUtils) (shuffle : Nat → List Nat → List Nat)
    (t : Tracker) : (make_guess_run gu shuffle t).isSome = true := by
  unfold make_guess_run
  exact searchAux_isSome gu shuffle (gu.n_positions + 1) 0 _ (Nat.zero_le _) (by omega)

lemma tryColorsDup_trk {recd : SearchState → Option (Bool × SearchState)} {pos : Nat}
    (hrec : ∀ s r, recd s = some r → r.2.trk = s.trk) :
    ∀ (l : List Nat) (s : SearchState) (r : Bool × SearchState),
      tryColorsDup recd pos l s = some r → r.2.trk = s.trk := by
  intro l
  induction l with
  | nil =>
    intro s r h
    cases h
    rfl
  | cons color rest ih =>
    intro s r h
    rw [tryColorsDup] at h
    rcases hx : recd { s with cg := s.cg.set pos (some (color + 1)) } with - | ⟨b, s2⟩ <;>
      rw [hx] at h
    · cases h
    · cases b
      · have h2 := ih s2 r (by simpa using h)
        have h3 := hrec _ _ hx
        rw [h2, h3]
      · cases h
        have h3 := hrec _ _ hx
        exact h3

lemma tryColorsNoDup_trk {recd : SearchState → Option (Bool × SearchState)} {pos : Nat}
    (hrec : ∀ s r, recd s = some r → r.2.trk = s.trk) :
    ∀ (l : List Nat) (s : SearchState) (r : Bool × SearchState),
      tryColorsNoDup recd pos l s = some r → r.2.trk = s.trk := by
  intro l
  induction l with
  | nil =>
    intro s r h
    cases h
    rfl
  | cons color rest ih =>
    intro s r h
    rw [tryColorsNoDup] at h
    rcases hx : recd { s with ctc := s.ctc.set color false, cg := s.cg.set pos (some (color + 1)) } with - | ⟨b, s2⟩ <;> rw [hx] at h
    · cases h
    · cases b
      · have h2 := ih { s2 with ctc := s2.ctc.set color true } r (by simpa using h)
        have h3 := hrec _ _ hx
        rw [h2]
        exact h3
      · cases h
        have h3 := hrec _ _ hx
        exact h3

lemma searchAux_trk (gu : GameUtils) (shuffle : Nat → List Nat → List Nat) :
    ∀ (fuel pos : Nat) (s : SearchState) (r : Bool × SearchState),
      searchAux gu shuffle fuel pos s = some r → r.2.trk = s.trk := by
  intro fuel
  induction fuel with
  | zero => intro pos s r h; cases h
  | succ fuel ih =>
    intro pos s r h
    rw [searchAux] at h
    rcases Decidable.em (pos = gu.n_positions) with he | he
    · rw [if_pos he] at h
      cases h
      rfl
    · rw [if_neg he] at h
      dsimp only at h
      split_ifs at h
      · have h4 := tryColorsDup_trk (fun s2 r2 => ih (pos + 1) s2 r2) _ _ r h
        exact h4
      · have h4 := tryColorsNoDup_trk (fun s2 r2 => ih (pos + 1) s2 r2) _ _ r h
        exact h4

/-- C8: `make_guess` never mutates the tracker: whatever the search
returns, the tracker inside the final search state — validity matrix,
unseen-colors set, right-colors set and completion flag — is exactly the
tracker it started from. -/
theorem claim_C8_make_guess_frame (gu : GameUtils) (shuffle : Nat → List Nat → List Nat)
    (t : Tracker) :
    (make_guess_run gu shuffle t).elim True (fun r =>
      r.2.trk.valid_guess = t.valid_guess ∧
      r.2.trk.unseen_colors = t.unseen_colors ∧
      r.2.trk.right_colors = t.right_colors ∧
      r.2.trk.right_colors_found = t.right_colors_found) := by
  rcases hx : make_guess_run gu shuffle t with - | r
  · exact trivial
  · have h := searchAux_trk gu shuffle (gu.n_positions + 1) 0 (initSearchState gu t) r hx
    rw [show (initSearchState gu t).trk = t from rfl] at h
    rw [Option.elim]
    rw [h]
    exact ⟨rfl, rfl, rfl, rfl⟩

/-- A trace entry `(pos, cg, shuffled, sorted)` is well-formed for tracker
`t0` when its sorted candidate list is the stable key-sort of the shuffled
list under the key the source actually computes (membership of the color's
value anywhere in `current_guess`). -/
def TraceGood (t0 : Tracker) (e : Nat × List (Option Nat) × List Nat × List Nat) : Prop :=
  e.2.2.2 = sortKey (priorityKey t0.unseen_colors e.2.1) e.2.2.1

lemma tryColorsDup_trace {recd : SearchState → Option (Bool × SearchState)} {pos : Nat}
    {t0 : Tracker}
    (hrec : ∀ s r, recd s = some r → s.trk = t0 →
      ∀ e ∈ r.2.tra, e ∈ s.tra ∨ TraceGood t0 e)
    (hrectrk : ∀ s r, recd s = some r → r.2.trk = s.trk) :
    ∀ (l : List Nat) (s : SearchState) (r : Bool × SearchState),
      tryColorsDup recd pos l s = some r → s.trk = t0 →
      ∀ e ∈ r.2.tra, e ∈ s.tra ∨ TraceGood t0 e := by
  intro l
  induction l with
  | nil =>
    intro s r h htrk e he
    cases h
    exact Or.inl he
  | cons color rest ih =>
    intro s r h htrk e he
    rw [tryColorsDup] at h
    rcases hx : recd { s with cg := s.cg.set pos (some (color + 1)) } with - | ⟨b, s2⟩ <;>
      rw [hx] at h
    · cases h
    · cases b
      · have hs2trk : s2.trk = t0 := by
          have h3 := hrectrk _ _ hx
          rw [h3]
          exact htrk
        rcases ih s2 r (by simpa using h) hs2trk e he with hin | hgood
        · exact hrec _ _ hx htrk e hin
        · exact Or.inr hgood
      · cases h
        exact hrec _ _ hx htrk e he

lemma tryColorsNoDup_trace {recd : SearchState → Option (Bool × SearchState)} {pos : Nat}
    {t0 : Tracker}
    (hrec : ∀ s r, recd s = some r → s.trk = t0 →
      ∀ e ∈ r.2.tra, e ∈ s.tra ∨ TraceGood t0 e)
    (hrectrk : ∀ s r, recd s = some r → r.2.trk = s.trk) :
    ∀ (l : List Nat) (s : SearchState) (r : Bool × SearchState),
      tryColorsNoDup recd pos l s = some r → s.trk = t0 →
      ∀ e ∈ r.2.tra, e ∈ s.tra ∨ TraceGood t0 e := by
  intro l
  induction l with
  | nil =>
    intro s r h htrk e he
    cases h
    exact Or.inl he
  | cons color rest ih =>
    intro s r h htrk e he
    rw [tryColorsNoDup] at h
    rcases hx : recd { s with ctc := s.ctc.set color false, cg := s.cg.set pos (some (color + 1)) } with - | ⟨b, s2⟩ <;> rw [hx] at h
    · cases h
    · cases b
      · have hs2trk : ({ s2 with ctc := s2.ctc.set color true } : SearchState).trk = t0 := by
          have h3 := hrectrk _ _ hx
          exact h3.trans htrk
        rcases ih _ r (by simpa using h) hs2trk e he with hin | hgood
        · exact hrec _ _ hx htrk e hin
        · exact Or.inr hgood
      · cases h
        exact hrec _ _ hx htrk e he


lemma searchAux_trace (gu : GameUtils) (shuffle : Nat → List Nat → List Nat) (t0 : Tracker) :
    ∀ (fuel pos : Nat) (s : SearchState) (r : Bool × SearchState),
      searchAux gu shuffle fuel pos s = some r → s.trk = t0 →
      ∀ e ∈ r.2.tra, e ∈ s.tra ∨ TraceGood t0 e := by
  intro fuel
  induction fuel with
  | zero => intro pos s r h; cases h
  | succ fuel ih =>
    intro pos s r h htrk e he
    rw [searchAux] at h
    rcases Decidable.em (pos = gu.n_positions) with heq | heq
    · rw [if_pos heq] at h
      cases h
      exact Or.inl he
    · rw [if_neg heq] at h
      dsimp only at h
      have hnewgood : TraceGood t0
          (pos, s.cg, shuffle s.rng ((List.range gu.n_colors).filter
            (fun c => s.ctc.getD c false && getEntry s.trk.valid_guess pos c)),
           sortKey (priorityKey s.trk.unseen_colors s.cg)
             (shuffle s.rng ((List.range gu.n_colors).filter
               (fun c => s.ctc.getD c false && getEntry s.trk.valid_guess pos c)))) := by
        unfold TraceGood
        dsimp only
        rw [htrk]
      have hloop : ∀ e2 ∈ r.2.tra,
          e2 ∈ s.tra ++ [(pos, s.cg, shuffle s.rng ((List.range gu.n_colors).filter
            (fun c => s.ctc.getD c false && getEntry s.trk.valid_guess pos c)),
           sortKey (priorityKey s.trk.unseen_colors s.cg)
             (shuffle s.rng ((List.range gu.n_colors).filter
               (fun c => s.ctc.getD c false && getEntry s.trk.valid_guess pos c))))] ∨
          TraceGood t0 e2 := by
        intro e2 he2
        split_ifs at h
        · exact tryColorsDup_trace (fun s4 r4 h4 ht4 => ih (pos + 1) s4 r4 h4 ht4)
            (fun s4 r4 h4 => searchAux_trk gu shuffle fuel (pos + 1) s4 r4 h4)
            _ _ r h htrk e2 he2
        · exact tryColorsNoDup_trace (fun s4 r4 h4 ht4 => ih (pos + 1) s4 r4 h4 ht4)
            (fun s4 r4 h4 => searchAux_trk gu shuffle fuel (pos + 1) s4 r4 h4)
            _ _ r h htrk e2 he2
      rcases hloop e he with hin | hgood
      · rcases List.mem_append.mp hin with hin2 | hin2
        · exact Or.inl hin2
        · rcases List.mem_singleton.mp hin2 with rfl
          exact Or.inr hnewgood
      · exact Or.inr hgood

/-- C7 as stated is violated by the code: the priority key tests membership
of the color's value in the WHOLE `current_guess` array, so stale entries
left at the current and later positions by abandoned branches change the
order. Concretely (3 colors, 4 positions, duplicates allowed, identity
shuffle, unseen = {0,1}, right = {2}): on the second visit to position 1
the guess array still holds the stale value 2 at position 2, which demotes
unseen color 1 to priority 2, so the tried order is [2, 1] while the
spec's earlier-positions-only key orders [1, 2]. -/
theorem claim_C7_counterexample :
    ((make_guess_run ⟨3, 4, true⟩ (fun _ l => l)
      ⟨[[true, false, true], [false, true, true], [false, true, false],
        [false, false, false]], {0, 1}, {2}, false⟩).map
        (fun r => r.2.tra.getD 6 (0, [], [], []))) =
      some (1, [some 3, some 3, some 2, none], [1, 2], [2, 1]) ∧
    sortKey (specPriorityKey ({0, 1} : Finset Nat)
      [some 3, some 3, some 2, none] 1) [1, 2] = [1, 2] ∧
    ([2, 1] : List Nat) ≠ [1, 2] := by
  refine ⟨by decide, by decide, by decide⟩

/-- C7 amended: at every recursive call the candidate colors are the
shuffled list stably sorted by ascending key, where the key is 0 for an
unseen color whose value does not occur ANYWHERE in the current-guess
array (including stale entries at the current and later positions left by
abandoned branches), 2 for an unseen color whose value does occur
somewhere in that array, and 1 for a color not in the unseen set. -/
theorem claim_C7_amended_priority_order (gu : GameUtils)
    (shuffle : Nat → List Nat → List Nat) (t : Tracker) (r : Bool × SearchState)
    (h : make_guess_run gu shuffle t = some r) :
    ∀ e ∈ r.2.tra,
      e.2.2.2 = sortKey (priorityKey t.unseen_colors e.2.1) e.2.2.1 := by
  intro e he
  rcases searchAux_trace gu shuffle t (gu.n_positions + 1) 0 (initSearchState gu t) r h rfl
    e he with hin | hgood
  · cases hin
  · exact hgood

theorem claim_C7_amended_witness :
    (make_guess_run ⟨1, 1, true⟩ (fun _ l => l) (initTracker ⟨1, 1, true⟩) =
      some (true, ⟨initTracker ⟨1, 1, true⟩, [some 1], [true], 1, [(0, [none], [0], [0])]⟩)) ∧
    ∀ e ∈ (⟨initTracker ⟨1, 1, true⟩, [some 1], [true], 1,
        [(0, [none], [0], [0])]⟩ : SearchState).tra,
      e.2.2.2 = sortKey (priorityKey (initTracker ⟨1, 1, true⟩).unseen_colors e.2.1) e.2.2.1 :=
  ⟨by decide, claim_C7_amended_priority_order ⟨1, 1, true⟩ (fun _ l => l)
    (initTracker ⟨1, 1, true⟩)
    (true, ⟨initTracker ⟨1, 1, true⟩, [some 1], [true], 1, [(0, [none], [0], [0])]⟩)
    (by decide)⟩

lemma insertKey_perm (key : Nat → Nat) (x : Nat) :
    ∀ l : List Nat, (insertKey key x l).Perm (x :: l) := by
  intro l
  induction l with
  | nil => exact List.Perm.refl _
  | cons y ys ih =>
    rw [insertKey]
    split_ifs with h
    · exact (ih.cons y).trans (List.Perm.swap x y ys)
    · exact List.Perm.refl _

lemma sortKey_perm (key : Nat → Nat) : ∀ l : List Nat, (sortKey key l).Perm l := by
  intro l
  induction l with
  | nil => exact List.Perm.refl _
  | cons x xs ih =>
    rw [sortKey]
    exact (insertKey_perm key x _).trans (ih.cons x)

lemma set_restore (l : List Bool) (i : Nat) (h : l.getD i false = true) :
    (l.set i false).set i true = l := by
  rcases Nat.lt_or_ge i l.length with hi | hi
  · refine List.ext_get? ?_
    intro n
    rcases eq_or_ne n i with rfl | hne
    · rw [List.get?_set_eq_of_lt _ (by rw [List.length_set]; exact hi)]
      rw [List.getD_eq_getD_get?] at h
      rcases hx : l.get? n with - | b
      · rw [hx] at h; cases h
      · rw [hx] at h
        simp only [Option.getD_some] at h
        rw [h]
    · rw [List.get?_set_ne _ _ (Ne.symm hne), List.get?_set_ne _ _ (Ne.symm hne)]
  · rw [List.set_eq_of_length_le hi, List.set_eq_of_length_le hi]

lemma getD_set_false_true {l : List Bool} {i c : Nat}
    (h : (l.set i false).getD c false = true) : c ≠ i ∧ l.getD c false = true := by
  rcases eq_or_ne c i with rfl | hne
  · exfalso
    rcases Nat.lt_or_ge c l.length with hi | hi
    · rw [getD_set_self _ _ _ _ hi] at h
      cases h
    · rw [List.set_eq_of_length_le hi, List.getD_eq_default _ _ hi] at h
      cases h
  · rw [getD_set_ne _ _ _ (Ne.symm hne)] at h
    exact ⟨hne, h⟩

/-- Soundness facts about one `_make_guess` call starting at `pos` in state
`s`: lengths are preserved, entries below `pos` are untouched, the
checkable mask is restored on failure, and on success every position from
`pos` on holds a color valid in the matrix and checkable at entry — with
pairwise-distinct colors when duplicates are disallowed. -/
def SearchOut (gu : GameUtils) (pos : Nat) (s : SearchState) (r : Bool × SearchState) : Prop :=
  r.2.cg.length = s.cg.length ∧
  r.2.ctc.length = s.ctc.length ∧
  (∀ q, q < pos → r.2.cg.get? q = s.cg.get? q) ∧
  (r.1 = false → r.2.ctc = s.ctc) ∧
  (r.1 = true → ∀ q, pos ≤ q → q < gu.n_positions →
    ∃ c, r.2.cg.get? q = some (some (c + 1)) ∧ c < gu.n_colors ∧
      getEntry s.trk.valid_guess q c = true ∧ s.ctc.getD c false = true) ∧
  (r.1 = true → gu.duplicates_allowed = false →
    ∀ q1 q2 c1 c2, pos ≤ q1 → q1 < q2 → q2 < gu.n_positions →
      r.2.cg.get? q1 = some (some c1) → r.2.cg.get? q2 = some (some c2) → c1 ≠ c2)

lemma tryColorsDup_sound {gu : GameUtils} {recd : SearchState → Option (Bool × SearchState)}
    {pos : Nat} (hdup : gu.duplicates_allowed = true)
    (hrec : ∀ s r, recd s = some r → s.cg.length = gu.n_positions →
      s.ctc.length = gu.n_colors → SearchOut gu (pos + 1) s r)
    (hrectrk : ∀ s r, recd s = some r → r.2.trk = s.trk) :
    ∀ (l : List Nat) (s : SearchState) (r : Bool × SearchState),
      tryColorsDup recd pos l s = some r →
      s.cg.length = gu.n_positions → s.ctc.length = gu.n_colors → pos < gu.n_positions →
      (∀ c ∈ l, c < gu.n_colors ∧ getEntry s.trk.valid_guess pos c = true ∧
        s.ctc.getD c false = true) →
      SearchOut gu pos s r := by
  intro l
  induction l with
  | nil =>
    intro s r h hcg hctc hpos hl
    cases h
    refine ⟨rfl, rfl, fun q hq => rfl, fun _ => rfl, ?_, ?_⟩
    · intro hf; cases hf
    · intro hf; cases hf
  | cons color rest ih =>
    intro s r h hcg hctc hpos hl
    obtain ⟨hc1, hc2, hc3⟩ := hl color (List.mem_cons_self _ _)
    rw [tryColorsDup] at h
    rcases hx : recd { s with cg := s.cg.set pos (some (color + 1)) } with - | ⟨b, s2⟩ <;>
      rw [hx] at h
    · cases h
    · have hslen : ({ s with cg := s.cg.set pos (some (color + 1)) } : SearchState).cg.length
          = gu.n_positions := by
        dsimp only
        rw [List.length_set]
        exact hcg
      have ho := hrec _ _ hx hslen hctc
      obtain ⟨ho1, ho2, ho3, ho4, ho5, ho6⟩ := ho
      cases b
      · have hctceq : s2.ctc = s.ctc := ho4 rfl
        have htrk : s2.trk = s.trk := hrectrk _ _ hx
        have hcg2 : s2.cg.length = gu.n_positions := by rw [ho1]; exact hslen
        have hctc2 : s2.ctc.length = gu.n_colors := by rw [hctceq]; exact hctc
        have hl2 : ∀ c ∈ rest, c < gu.n_colors ∧ getEntry s2.trk.valid_guess pos c = true ∧
            s2.ctc.getD c false = true := by
          intro c hc
          obtain ⟨k1, k2, k3⟩ := hl c (List.mem_cons_of_mem _ hc)
          exact ⟨k1, by rw [htrk]; exact k2, by rw [hctceq]; exact k3⟩
        obtain ⟨p1, p2, p3, p4, p5, p6⟩ := ih s2 r (by simpa using h) hcg2 hctc2 hpos hl2
        refine ⟨?_, ?_, ?_, ?_, ?_, ?_⟩
        · rw [p1, ho1]
          dsimp only
          rw [List.length_set]
        · rw [p2, hctceq]
        · intro q hq
          rw [p3 q hq, ho3 q (by omega)]
          dsimp only
          rw [List.get?_set_ne _ _ (by omega : pos ≠ q)]
        · intro hf
          rw [p4 hf, hctceq]
        · intro ht q hql hqu
          obtain ⟨c, k1, k2, k3, k4⟩ := p5 ht q hql hqu
          rw [htrk] at k3
          rw [hctceq] at k4
          exact ⟨c, k1, k2, k3, k4⟩
        · intro ht hd
          rw [hd] at hdup; cases hdup
      · cases h
        refine ⟨?_, ?_, ?_, ?_, ?_, ?_⟩
        · rw [ho1]
          dsimp only
          rw [List.length_set]
        · rw [ho2]
        · intro q hq
          rw [ho3 q (by omega)]
          dsimp only
          rw [List.get?_set_ne _ _ (by omega : pos ≠ q)]
        · intro hf; cases hf
        · intro ht q hql hqu
          rcases eq_or_ne q pos with rfl | hqpos
          · refine ⟨color, ?_, hc1, hc2, hc3⟩
            rw [ho3 q (by omega)]
            dsimp only
            rw [List.get?_set_eq_of_lt _ (by rw [hcg]; exact hpos)]
          · obtain ⟨c, k1, k2, k3, k4⟩ := ho5 rfl q (by omega) hqu
            exact ⟨c, k1, k2, k3, k4⟩
        · intro ht hd
          rw [hd] at hdup; cases hdup

lemma tryColorsNoDup_sound {gu : GameUtils} {recd : SearchState → Option (Bool × SearchState)}
    {pos : Nat}
    (hrec : ∀ s r, recd s = some r → s.cg.length = gu.n_positions →
      s.ctc.length = gu.n_colors → SearchOut gu (pos + 1) s r)
    (hrectrk : ∀ s r, recd s = some r → r.2.trk = s.trk) :
    ∀ (l : List Nat) (s : SearchState) (r : Bool × SearchState),
      tryColorsNoDup recd pos l s = some r →
      s.cg.length = gu.n_positions → s.ctc.length = gu.n_colors → pos < gu.n_positions →
      (∀ c ∈ l, c < gu.n_colors ∧ getEntry s.trk.valid_guess pos c = true ∧
        s.ctc.getD c false = true) →
      SearchOut gu pos s r := by
  intro l
  induction l with
  | nil =>
    intro s r h hcg hctc hpos hl
    cases h
    refine ⟨rfl, rfl, fun q hq => rfl, fun _ => rfl, ?_, ?_⟩
    · intro hf; cases hf
    · intro hf; cases hf
  | cons color rest ih =>
    intro s r h hcg hctc hpos hl
    obtain ⟨hc1, hc2, hc3⟩ := hl color (List.mem_cons_self _ _)
    rw [tryColorsNoDup] at h
    rcases hx : recd { s with ctc := s.ctc.set color false, cg := s.cg.set pos (some (color + 1)) } with - | ⟨b, s2⟩ <;> rw [hx] at h
    · cases h
    · have hslen : ({ s with ctc := s.ctc.set color false, cg := s.cg.set pos (some (color + 1)) } : SearchState).cg.length = gu.n_positions := by
        dsimp only
        rw [List.length_set]
        exact hcg
      have hslen2 : ({ s with ctc := s.ctc.set color false, cg := s.cg.set pos (some (color + 1)) } : SearchState).ctc.length = gu.n_colors := by
        dsimp only
        rw [List.length_set]
        exact hctc
      have ho := hrec _ _ hx hslen hslen2
      obtain ⟨ho1, ho2, ho3, ho4, ho5, ho6⟩ := ho
      cases b
      · have hctceq : s2.ctc = s.ctc.set color false := ho4 rfl
        have htrk : s2.trk = s.trk := hrectrk _ _ hx
        have hctc3 : ({ s2 with ctc := s2.ctc.set color true } : SearchState).ctc = s.ctc := by
          dsimp only
          rw [hctceq]
          exact set_restore s.ctc color hc3
        have hcg2 : ({ s2 with ctc := s2.ctc.set color true } : SearchState).cg.length
            = gu.n_positions := by
          dsimp only
          rw [ho1]
          exact hslen
        have hctc2 : ({ s2 with ctc := s2.ctc.set color true } : SearchState).ctc.length
            = gu.n_colors := by
          rw [hctc3]
          exact hctc
        have hl2 : ∀ c ∈ rest, c < gu.n_colors ∧
            getEntry ({ s2 with ctc := s2.ctc.set color true } : SearchState).trk.valid_guess
              pos c = true ∧
            ({ s2 with ctc := s2.ctc.set color true } : SearchState).ctc.getD c false = true := by
          intro c hc
          obtain ⟨k1, k2, k3⟩ := hl c (List.mem_cons_of_mem _ hc)
          refine ⟨k1, ?_, ?_⟩
          · dsimp only
            rw [htrk]
            exact k2
          · rw [hctc3]
            exact k3
        obtain ⟨p1, p2, p3, p4, p5, p6⟩ :=
          ih { s2 with ctc := s2.ctc.set color true } r (by simpa using h) hcg2 hctc2 hpos hl2
        refine ⟨?_, ?_, ?_, ?_, ?_, ?_⟩
        · rw [p1]
          dsimp only
          rw [ho1]
          dsimp only
          rw [List.length_set]
        · rw [p2, hctc3]
        · intro q hq
          rw [p3 q hq]
          dsimp only
          rw [ho3 q (by omega)]
          dsimp only
          rw [List.get?_set_ne _ _ (by omega : pos ≠ q)]
        · intro hf
          rw [p4 hf, hctc3]
        · intro ht q hql hqu
          obtain ⟨c, k1, k2, k3, k4⟩ := p5 ht q hql hqu
          dsimp only at k3
          rw [htrk] at k3
          rw [hctc3] at k4
          exact ⟨c, k1, k2, k3, k4⟩
        · intro ht hd q1 q2 c1 c2 hq1 h12 hq2 e1 e2
          exact p6 ht hd q1 q2 c1 c2 hq1 h12 hq2 e1 e2
      · cases h
        refine ⟨?_, ?_, ?_, ?_, ?_, ?_⟩
        · rw [ho1]
          dsimp only
          rw [List.length_set]
        · rw [ho2]
          dsimp only
          rw [List.length_set]
        · intro q hq
          rw [ho3 q (by omega)]
          dsimp only
          rw [List.get?_set_ne _ _ (by omega : pos ≠ q)]
        · intro hf; cases hf
        · intro ht q hql hqu
          rcases eq_or_ne q pos with rfl | hqpos
          · refine ⟨color, ?_, hc1, hc2, hc3⟩
            rw [ho3 q (by omega)]
            dsimp only
            rw [List.get?_set_eq_of_lt _ (by rw [hcg]; exact hpos)]
          · obtain ⟨c, k1, k2, k3, k4⟩ := ho5 rfl q (by omega) hqu
            dsimp only at k4
            obtain ⟨-, k5⟩ := getD_set_false_true k4
            exact ⟨c, k1, k2, k3, k5⟩
        · intro ht hd q1 q2 c1 c2 hq1 h12 hq2 e1 e2
          rcases eq_or_ne q1 pos with rfl | hq1pos
          · have hv1 : s2.cg.get? q1 = some (some (color + 1)) := by
              rw [ho3 q1 (by omega)]
              dsimp only
              rw [List.get?_set_eq_of_lt _ (by rw [hcg]; exact hpos)]
            rw [hv1] at e1
            simp only [Option.some.injEq] at e1
            obtain ⟨c, k1, k2, k3, k4⟩ := ho5 rfl q2 (by omega) hq2
            rw [k1] at e2
            simp only [Option.some.injEq] at e2
            dsimp only at k4
            obtain ⟨hcne, -⟩ := getD_set_false_true k4
            omega
          · exact ho6 rfl hd q1 q2 c1 c2 (by omega) h12 hq2 e1 e2

lemma searchAux_sound (gu : GameUtils) (shuffle : Nat → List Nat → List Nat)
    (hsh : ∀ k l, (shuffle k l).Perm l) :
    ∀ (fuel pos : Nat) (s : SearchState) (r : Bool × SearchState),
      searchAux gu shuffle fuel pos s = some r →
      pos ≤ gu.n_positions → s.cg.length = gu.n_positions → s.ctc.length = gu.n_colors →
      SearchOut gu pos s r := by
  intro fuel
  induction fuel with
  | zero => intro pos s r h; cases h
  | succ fuel ih =>
    intro pos s r h hpos hcg hctc
    rw [searchAux] at h
    rcases Decidable.em (pos = gu.n_positions) with heq | heq
    · rw [if_pos heq] at h
      cases h
      refine ⟨rfl, rfl, fun q hq => rfl, ?_, ?_, ?_⟩
      · intro hf; cases hf
      · intro _ q hql hqu; omega
      · intro _ _ q1 q2 c1 c2 hq1 h12 hq2 _ _; omega
    · rw [if_neg heq] at h
      dsimp only at h
      have hpos2 : pos < gu.n_positions := by omega
      have hmem : ∀ c ∈ sortKey (priorityKey s.trk.unseen_colors s.cg)
          (shuffle s.rng ((List.range gu.n_colors).filter
            (fun c => s.ctc.getD c false && getEntry s.trk.valid_guess pos c))),
          c < gu.n_colors ∧ getEntry s.trk.valid_guess pos c = true ∧
            s.ctc.getD c false = true := by
        intro c hc
        have hc2 : c ∈ shuffle s.rng ((List.range gu.n_colors).filter
            (fun c => s.ctc.getD c false && getEntry s.trk.valid_guess pos c)) :=
          ((sortKey_perm _ _).mem_iff).mp hc
        have hc3 : c ∈ (List.range gu.n_colors).filter
            (fun c => s.ctc.getD c false && getEntry s.trk.valid_guess pos c) :=
          ((hsh _ _).mem_iff).mp hc2
        rw [List.mem_filter] at hc3
        obtain ⟨hr, hp⟩ := hc3
        rw [Bool.and_eq_true] at hp
        exact ⟨List.mem_range.mp hr, hp.2, hp.1⟩
      split_ifs at h with hdup
      · have hres := tryColorsDup_sound hdup
          (fun s4 r4 h4 l4 c4 => ih (pos + 1) s4 r4 h4 (by omega) l4 c4)
          (fun s4 r4 h4 => searchAux_trk gu shuffle fuel (pos + 1) s4 r4 h4)
          _ _ r h hcg hctc hpos2 hmem
        exact hres
      · have hres := tryColorsNoDup_sound
          (fun s4 r4 h4 l4 c4 => ih (pos + 1) s4 r4 h4 (by omega) l4 c4)
          (fun s4 r4 h4 => searchAux_trk gu shuffle fuel (pos + 1) s4 r4 h4)
          _ _ r h hcg hctc hpos2 hmem
        exact hres

/-- C1: every guess returned by `make_guess` (when not the `None` sentinel)
is a complete code of `n_positions` colors, each chosen color being valid
in the matrix at its position and within `[1, n_colors]`, and when
duplicates are disallowed the colors are pairwise distinct. -/
theorem claim_C1_guess_consistent (gu : GameUtils) (t : Tracker) (hreach : Reachable gu t)
    (shuffle : Nat → List Nat → List Nat) (hsh : ∀ k l, (shuffle k l).Perm l)
    (g : List (Option Nat)) (hg : make_guess gu shuffle t = some g) :
    g.length = gu.n_positions ∧
    (∀ p, p < gu.n_positions → ∃ c, g.getD p none = some (c + 1) ∧ c < gu.n_colors ∧
      getEntry t.valid_guess p c = true) ∧
    (gu.duplicates_allowed = false → ∀ p1 p2, p1 < p2 → p2 < gu.n_positions →
      g.getD p1 none ≠ g.getD p2 none) := by
  unfold make_guess at hg
  rcases hx : make_guess_run gu shuffle t with - | ⟨b, sf⟩ <;> rw [hx] at hg
  · cases hg
  · cases b
    · cases hg
    · have hgeq : g = sf.cg := by
        cases hg
        rfl
      subst hgeq
      unfold make_guess_run at hx
      have hout := searchAux_sound gu shuffle hsh (gu.n_positions + 1) 0
        (initSearchState gu t) (true, sf) hx (Nat.zero_le _)
        (by dsimp only [initSearchState]; rw [List.length_replicate])
        (by dsimp only [initSearchState]; rw [List.length_map, List.length_range])
      obtain ⟨o1, o2, o3, o4, o5, o6⟩ := hout
      have hlen : sf.cg.length = gu.n_positions := by
        rw [o1]
        dsimp only [initSearchState]
        rw [List.length_replicate]
      refine ⟨hlen, ?_, ?_⟩
      · intro p hp
        obtain ⟨c, k1, k2, k3, -⟩ := o5 rfl p (Nat.zero_le _) hp
        refine ⟨c, ?_, k2, k3⟩
        rw [List.getD_eq_getD_get?, k1]
        rfl
      · intro hd p1 p2 h12 hp2
        obtain ⟨c1, k1, -, -, -⟩ := o5 rfl p1 (Nat.zero_le _) (by omega)
        obtain ⟨c2, l1, -, -, -⟩ := o5 rfl p2 (Nat.zero_le _) hp2
        have hne := o6 rfl hd p1 p2 (c1 + 1) (c2 + 1) (Nat.zero_le _) h12 hp2 k1 l1
        rw [List.getD_eq_getD_get?, List.getD_eq_getD_get?, k1, l1]
        intro hcon
        simp only [Option.getD_some, Option.some.injEq] at hcon
        exact hne hcon

theorem claim_C1_witness :
    (make_guess ⟨2, 1, true⟩ (fun _ l => l) (initTracker ⟨2, 1, true⟩) = some [some 1]) ∧
    ([some 1] : List (Option Nat)).length = 1 ∧
    (∀ p, p < 1 → ∃ c, ([some 1] : List (Option Nat)).getD p none = some (c + 1) ∧ c < 2 ∧
      getEntry (initTracker ⟨2, 1, true⟩).valid_guess p c = true) ∧
    ((⟨2, 1, true⟩ : GameUtils).duplicates_allowed = false → ∀ p1 p2, p1 < p2 → p2 < 1 →
      ([some 1] : List (Option Nat)).getD p1 none ≠ ([some 1] : List (Option Nat)).getD p2 none) :=
  ⟨by decide, claim_C1_guess_consistent ⟨2, 1, true⟩ (initTracker ⟨2, 1, true⟩)
    Reachable.init (fun _ l => l) (fun _ l => List.Perm.refl l) [some 1] (by decide)⟩
